import Mathlib

/-!
# RISC-V assembler: a shallow embedding of `assembler.cpp`

The C++ class `RiscVAssembler` keeps two `unordered_map`s (register names and
instruction descriptors) and offers `parseAndEncode`, which tokenises one line
with a `stringstream` and concatenates textual bit fields.

Modelling conventions.
* `std::string` is a Lean `String`, one Lean character per C++ `char`.
* `unordered_map` is an association list; `operator[]` returns the mapped value
  and, when the key is absent, appends a value-initialised entry.  The C++
  iteration order is unspecified, so only lookups of the list are meaningful.
* `stringstream` is the unread characters plus `eofbit` and `failbit`.
* `int` is an `Int` kept inside the 32-bit range by the extraction operator;
  `size_t` arithmetic is reduced modulo `2 ^ 64`.
* The local `int immediate;` of `parseAndEncode` is uninitialised; its
  indeterminate starting value is the parameter `immediate0`.
-/

namespace RiscV

/-! ## Data model -/

/-- Structure to hold instruction information (`struct InstructionInfo`). -/
structure InstructionInfo where
  opcode : String
  funct3 : String
  funct7 : String
  type : Char
  deriving DecidableEq, Repr

/-- Value-initialised `InstructionInfo`: empty strings and the zero character. -/
def InstructionInfo.zero : InstructionInfo := ⟨"", "", "", Char.ofNat 0⟩

/-- Class state of `RiscVAssembler`: its two member maps. -/
structure RiscVAssembler where
  registerMap : List (String × String)
  instructionMap : List (String × InstructionInfo)
  deriving DecidableEq, Repr

/-- Member initialiser of `registerMap`. -/
def registerMap : List (String × String) :=
  [("x0", "00000"), ("x1", "00001"), ("x2", "00010"), ("x3", "00011"),
   ("x4", "00100"), ("x5", "00101"), ("x6", "00110"), ("x7", "00111"),
   ("x8", "01000"), ("x9", "01001"), ("x10", "01010"), ("x11", "01011"),
   ("x12", "01100"), ("x13", "01101"), ("x14", "01110"), ("x15", "01111"),
   ("x16", "10000"), ("x17", "10001"), ("x18", "10010"), ("x19", "10011"),
   ("x20", "10100"), ("x21", "10101"), ("x22", "10110"), ("x23", "10111"),
   ("x24", "11000"), ("x25", "11001"), ("x26", "11010"), ("x27", "11011"),
   ("x28", "11100"), ("x29", "11101"), ("x30", "11110"), ("x31", "11111")]

/-- Member initialiser of `instructionMap`. -/
def instructionMap : List (String × InstructionInfo) :=
  [ -- R-type instructions
   ("add", ⟨"0110011", "000", "0000000", 'R'⟩),
   ("sub", ⟨"0110011", "000", "0100000", 'R'⟩),
   ("sll", ⟨"0110011", "001", "0000000", 'R'⟩),
   ("slt", ⟨"0110011", "010", "0000000", 'R'⟩),
   ("sltu", ⟨"0110011", "011", "0000000", 'R'⟩),
   ("xor", ⟨"0110011", "100", "0000000", 'R'⟩),
   ("srl", ⟨"0110011", "101", "0000000", 'R'⟩),
   ("sra", ⟨"0110011", "101", "0100000", 'R'⟩),
   ("or", ⟨"0110011", "110", "0000000", 'R'⟩),
   ("and", ⟨"0110011", "111", "0000000", 'R'⟩),
   -- I-type instructions
   ("addi", ⟨"0010011", "000", "", 'I'⟩),
   ("slti", ⟨"0010011", "010", "", 'I'⟩),
   ("sltiu", ⟨"0010011", "011", "", 'I'⟩),
   ("xori", ⟨"0010011", "100", "", 'I'⟩),
   ("ori", ⟨"0010011", "110", "", 'I'⟩),
   ("andi", ⟨"0010011", "111", "", 'I'⟩),
   ("slli", ⟨"0010011", "001", "0000000", 'I'⟩),
   ("srli", ⟨"0010011", "101", "0000000", 'I'⟩),
   ("srai", ⟨"0010011", "101", "0100000", 'I'⟩),
   ("jalr", ⟨"1100111", "000", "", 'I'⟩),
   ("lb", ⟨"0000011", "000", "", 'I'⟩),
   ("lh", ⟨"0000011", "001", "", 'I'⟩),
   ("lw", ⟨"0000011", "010", "", 'I'⟩),
   ("lbu", ⟨"0000011", "100", "", 'I'⟩),
   ("lhu", ⟨"0000011", "101", "", 'I'⟩),
   -- B-type instructions
   ("beq", ⟨"1100011", "000", "", 'B'⟩),
   ("bne", ⟨"1100011", "001", "", 'B'⟩),
   ("blt", ⟨"1100011", "100", "", 'B'⟩),
   ("bge", ⟨"1100011", "101", "", 'B'⟩),
   ("bltu", ⟨"1100011", "110", "", 'B'⟩),
   ("bgeu", ⟨"1100011", "111", "", 'B'⟩),
   -- J-type instructions
   ("jal", ⟨"1101111", "", "", 'J'⟩),
   -- S-type instructions (store)
   ("sb", ⟨"0100011", "000", "", 'S'⟩),
   ("sh", ⟨"0100011", "001", "", 'S'⟩),
   ("sw", ⟨"0100011", "010", "", 'S'⟩),
   -- U-type instructions
   ("lui", ⟨"0110111", "", "", 'U'⟩),
   ("auipc", ⟨"0010111", "", "", 'U'⟩)]

/-- A freshly constructed assembler object. -/
def fresh : RiscVAssembler := ⟨registerMap, instructionMap⟩

/-! ## Library behaviour used by the source -/

/-- Model of `unordered_map::operator[]`: the value stored under `k`; an absent
key is first inserted with the value-initialised `dflt`. -/
def index {V : Type} (dflt : V) (m : List (String × V)) (k : String) :
    V × List (String × V) :=
  match m.lookup k with
  | some v => (v, m)
  | none => (dflt, m ++ [(k, dflt)])

/-- Model of `std::string::substr(pos, n)`; every call site has `pos ≤ size`, so
the `out_of_range` exception never arises. -/
def substr (s : String) (pos n : Nat) : String :=
  ⟨(s.data.drop pos).take n⟩

/-- The `size_t` value `s.size() - 1`, wrapping around for the empty string. -/
def sizeMinusOne (s : String) : Nat :=
  (s.length + 2 ^ 64 - 1) % 2 ^ 64

/-- Model of `std::bitset<n>(v).to_string()` for an `int` argument: the `int` is
converted to `unsigned long long`, the low `n` bits are kept, and the most
significant of them is printed first. -/
def bitset (n : Nat) (v : Int) : String :=
  ⟨(List.range n).map
    (fun i => if (v % 2 ^ 64).toNat / 2 ^ (n - 1 - i) % 2 = 1 then '1' else '0')⟩

/-- Whitespace of the classic locale (`std::isspace`). -/
def isspace (c : Char) : Bool :=
  c = ' ' || c = '\t' || c = '\n' || c = Char.ofNat 11 || c = Char.ofNat 12 || c = '\r'

/-- Decimal digit test (`'0'`..`'9'`). -/
def isdigit (c : Char) : Bool :=
  48 ≤ c.toNat && c.toNat ≤ 57

/-- State of a `stringstream` opened for reading. -/
structure IStream where
  buf : List Char
  eofbit : Bool
  failbit : Bool
  deriving DecidableEq, Repr

/-- Model of `istream::sentry`: refuses when the stream is not good, otherwise
skips leading whitespace and refuses (setting `eofbit` and `failbit`) when the
input is exhausted. -/
def sentry (s : IStream) : IStream × Bool :=
  if s.eofbit || s.failbit then (⟨s.buf, s.eofbit, true⟩, false)
  else
    match s.buf.dropWhile isspace with
    | [] => (⟨[], true, true⟩, false)
    | c :: cs => (⟨c :: cs, false, false⟩, true)

/-- Model of `ss >> str` for a `std::string` whose current value is `old`: when
the sentry refuses, the string is left untouched; otherwise it receives the
characters up to the next whitespace or the end of input. -/
def extractString (s : IStream) (old : String) : IStream × String :=
  let r := sentry s
  if r.2 then
    let rest := r.1.buf.dropWhile (fun c => !isspace c)
    (⟨rest, rest.isEmpty, false⟩, ⟨r.1.buf.takeWhile (fun c => !isspace c)⟩)
  else (r.1, old)

/-- Value of a run of decimal digits. -/
def digitsValue (ds : List Char) : Nat :=
  ds.foldl (fun acc c => acc * 10 + (c.toNat - 48)) 0

/-- Model of `ss >> n` for an `int` whose current value is `old`: when the
sentry refuses, `n` is left untouched; otherwise an optional sign and a run of
decimal digits are consumed.  No digits stores `0` and sets `failbit`; a value
outside the `int` range stores the nearest bound and sets `failbit`. -/
def extractInt (s : IStream) (old : Int) : IStream × Int :=
  let r := sentry s
  if r.2 then
    let neg := r.1.buf.head? = some '-'
    let body := if r.1.buf.head? = some '-' ∨ r.1.buf.head? = some '+'
      then r.1.buf.tail else r.1.buf
    let ds := body.takeWhile isdigit
    let rest := body.dropWhile isdigit
    let v : Int := if neg then -(digitsValue ds : Int) else (digitsValue ds : Int)
    if ds.isEmpty then (⟨rest, rest.isEmpty, true⟩, 0)
    else if v < -2147483648 then (⟨rest, rest.isEmpty, true⟩, -2147483648)
    else if 2147483647 < v then (⟨rest, rest.isEmpty, true⟩, 2147483647)
    else (⟨rest, rest.isEmpty, false⟩, v)
  else (r.1, old)

/-! ## The encoders -/

/-- Function to encode an R-type instruction. -/
def encodeRType (a : RiscVAssembler) (info : InstructionInfo) (rd rs1 rs2 : String) :
    String × RiscVAssembler :=
  let r2 := index "" a.registerMap rs2
  let r1 := index "" r2.2 rs1
  let r0 := index "" r1.2 rd
  (info.funct7 ++ r2.1 ++ r1.1 ++ info.funct3 ++ r0.1 ++ info.opcode,
   ⟨r0.2, a.instructionMap⟩)

/-- Function to encode an I-type instruction. -/
def encodeIType (a : RiscVAssembler) (info : InstructionInfo) (rd rs1 : String)
    (immediate : Int) : String × RiscVAssembler :=
  let immBinary := bitset 12 immediate
  let r1 := index "" a.registerMap rs1
  let r0 := index "" r1.2 rd
  (immBinary ++ r1.1 ++ info.funct3 ++ r0.1 ++ info.opcode, ⟨r0.2, a.instructionMap⟩)

/-- Function to encode a B-type instruction (used for branches). -/
def encodeBType (a : RiscVAssembler) (info : InstructionInfo) (rs1 rs2 : String)
    (offset : Int) : String × RiscVAssembler :=
  let immBinary := bitset 13 offset
  let imm_12 := substr immBinary 0 1
  let imm_10_5 := substr immBinary 1 6
  let imm_4_1 := substr immBinary 7 4
  let imm_11 := substr immBinary 11 1
  let r2 := index "" a.registerMap rs2
  let r1 := index "" r2.2 rs1
  (imm_12 ++ imm_10_5 ++ r2.1 ++ r1.1 ++ info.funct3 ++ imm_4_1 ++ imm_11 ++ info.opcode,
   ⟨r1.2, a.instructionMap⟩)

/-- Function to encode a J-type instruction (used for jumps). -/
def encodeJType (a : RiscVAssembler) (info : InstructionInfo) (rd : String)
    (offset : Int) : String × RiscVAssembler :=
  let immBinary := bitset 21 offset
  let imm_20 := substr immBinary 0 1
  let imm_10_1 := substr immBinary 1 10
  let imm_11 := substr immBinary 11 1
  let imm_19_12 := substr immBinary 12 8
  let r0 := index "" a.registerMap rd
  (imm_20 ++ imm_19_12 ++ imm_11 ++ imm_10_1 ++ r0.1 ++ info.opcode,
   ⟨r0.2, a.instructionMap⟩)

/-- Function to encode an S-type instruction (`encodeSType`). -/
def encodeSType (a : RiscVAssembler) (info : InstructionInfo) (rs1 rs2 : String)
    (offset : Int) : String × RiscVAssembler :=
  let immBinary := bitset 12 offset
  let imm_11_5 := substr immBinary 0 7
  let imm_4_0 := substr immBinary 7 5
  let r2 := index "" a.registerMap rs2
  let r1 := index "" r2.2 rs1
  (imm_11_5 ++ r2.1 ++ r1.1 ++ info.funct3 ++ imm_4_0 ++ info.opcode,
   ⟨r1.2, a.instructionMap⟩)

/-- Function to encode a U-type instruction (`encodeUType`). -/
def encodeUType (a : RiscVAssembler) (info : InstructionInfo) (rd : String)
    (immediate : Int) : String × RiscVAssembler :=
  let immBinary := bitset 20 immediate
  let r0 := index "" a.registerMap rd
  (immBinary ++ r0.1 ++ info.opcode, ⟨r0.2, a.instructionMap⟩)

/-- Function to parse and encode a single line of RISC-V assembly code.  The
result is the returned string together with the assembler state after the
call. -/
def parseAndEncode (a : RiscVAssembler) (immediate0 : Int) (assembly : String) :
    String × RiscVAssembler :=
  let ss0 : IStream := ⟨assembly.data, false, false⟩
  let t := extractString ss0 ""
  let instruction := t.2
  let e := index InstructionInfo.zero a.instructionMap instruction
  let info := e.1
  let a1 : RiscVAssembler := ⟨a.registerMap, e.2⟩
  if info.type = 'R' then
    let x := extractString t.1 ""
    let y := extractString x.1 ""
    let z := extractString y.1 ""
    let rd := substr x.2 0 (sizeMinusOne x.2)
    let rs1 := substr y.2 0 (sizeMinusOne y.2)
    encodeRType a1 info rd rs1 z.2
  else if info.type = 'I' then
    let x := extractString t.1 ""
    let y := extractString x.1 ""
    let z := extractInt y.1 immediate0
    let rd := substr x.2 0 (sizeMinusOne x.2)
    let rs1 := substr y.2 0 (sizeMinusOne y.2)
    encodeIType a1 info rd rs1 z.2
  else if info.type = 'B' then
    let x := extractString t.1 ""
    let y := extractString x.1 ""
    let z := extractInt y.1 immediate0
    let rs1 := substr x.2 0 (sizeMinusOne x.2)
    let rs2 := substr y.2 0 (sizeMinusOne y.2)
    encodeBType a1 info rs1 rs2 z.2
  else if info.type = 'J' then
    let x := extractString t.1 ""
    let z := extractInt x.1 immediate0
    let rd := substr x.2 0 (sizeMinusOne x.2)
    encodeJType a1 info rd z.2
  else if info.type = 'S' then
    let x := extractString t.1 ""
    let z := extractInt x.1 immediate0
    let y := extractString z.1 ""
    let rs1 := substr y.2 0 (sizeMinusOne y.2)
    let rs2 := substr x.2 0 (sizeMinusOne x.2)
    encodeSType a1 info rs1 rs2 z.2
  else if info.type = 'U' then
    let x := extractString t.1 ""
    let z := extractInt x.1 immediate0
    encodeUType a1 info x.2 z.2
  else
    ("Unknown instruction", a1)

/-! ## Vocabulary of the specification -/

/-- Spec: the number `n` written with `w` binary digits, most significant first. -/
def binary : Nat → Nat → List Char
  | 0, _ => []
  | w + 1, n => binary w (n / 2) ++ [if n % 2 = 1 then '1' else '0']

/-- Spec: `bin5(xN)`, the 5-bit binary of the register number. -/
def bin5 (n : Nat) : String := ⟨binary 5 n⟩

/-- Spec: the `w`-bit two's-complement pattern of `v`, as an unsigned number. -/
def twos (w : Nat) (v : Int) : Nat :=
  if 0 ≤ v then v.toNat else 2 ^ w - v.natAbs

/-- Spec: `twos12(imm)`, the 12-bit two's-complement rendering. -/
def twos12 (v : Int) : String := ⟨binary 12 (twos 12 v)⟩

/-- Spec: the register name `xN`. -/
def regName (n : Nat) : String := "x" ++ toString n

/-- Spec: the first whitespace-separated token of a line (empty when the line
has none). -/
def firstToken (line : String) : String :=
  ⟨(line.data.dropWhile isspace).takeWhile (fun c => !isspace c)⟩

/-- Spec: the R-type mnemonics. -/
def rTypeMnemonics : List String :=
  ["add", "sub", "sll", "slt", "sltu", "xor", "srl", "sra", "or", "and"]

/-- Spec: the non-shift I-type mnemonics (arithmetic, `jalr`, loads). -/
def plainITypeMnemonics : List String :=
  ["addi", "slti", "sltiu", "xori", "ori", "andi", "jalr", "lb", "lh", "lw", "lbu", "lhu"]

/-- Spec: all I-type mnemonics. -/
def iTypeMnemonics : List String :=
  ["addi", "slti", "sltiu", "xori", "ori", "andi", "slli", "srli", "srai", "jalr",
   "lb", "lh", "lw", "lbu", "lhu"]

/-- Spec: the 37 supported mnemonics. -/
def supportedMnemonics : List String :=
  ["add", "sub", "sll", "slt", "sltu", "xor", "srl", "sra", "or", "and",
   "addi", "slti", "sltiu", "xori", "ori", "andi", "slli", "srli", "srai", "jalr",
   "lb", "lh", "lw", "lbu", "lhu",
   "beq", "bne", "blt", "bge", "bltu", "bgeu",
   "jal",
   "sb", "sh", "sw",
   "lui", "auipc"]

/-- Spec: a bit string is a string of `'0'` and `'1'` characters. -/
def IsBitString (s : String) : Prop := ∀ c ∈ s.data, c = '0' ∨ c = '1'

/-- An integer saturated to the range of a 32-bit `int`, which is what the
extraction operator stores for a literal outside that range. -/
def saturate (v : Int) : Int :=
  if v < -2147483648 then -2147483648 else if 2147483647 < v then 2147483647 else v

/-- The field a register token contributes: the table entry, or the empty
string that `operator[]` inserts for an absent key. -/
def regField (t : String) : String := (registerMap.lookup t).getD ""

/-- Spec: the shift-immediate mnemonics. -/
def shiftMnemonics : List String := ["slli", "srli", "srai"]

/-- Spec: the unsigned value of a run of binary digits, most significant first. -/
def bitsValue (bits : List Char) : Nat :=
  bits.foldl (fun acc c => 2 * acc + (if c = '1' then 1 else 0)) 0

/-- Spec: a field of `w` binary digits read as a two's-complement number. -/
def decodeTwos (w : Nat) (bits : List Char) : Int :=
  if bitsValue bits < 2 ^ (w - 1) then (bitsValue bits : Int)
  else (bitsValue bits : Int) - 2 ^ w

/-- Spec: search of the instruction table for the R-type entries with a given
`(funct7, funct3)` pair; the result lists their mnemonics. -/
def lookupRType (f7 f3 : String) : List String :=
  (instructionMap.filter
    (fun p => decide (p.2.type = 'R') && decide (p.2.funct7 = f7) && decide (p.2.funct3 = f3))).map
    Prod.fst

/-- Spec: R-type decoding of an output word: characters 0..6 are `funct7`,
characters 17..19 are `funct3`, and the pair is searched in the table. -/
def decodeRType (out : String) : List String :=
  lookupRType (substr out 0 7) (substr out 17 3)

/-- Growth of a map under `operator[]`: every lookup of `m'` is the lookup of
`m`, except that keys absent from `m` may be present with the value `d`. -/
def Extends {V : Type} (d : V) (m m' : List (String × V)) : Prop :=
  ∀ t, m'.lookup t = m.lookup t ∨ (m.lookup t = none ∧ m'.lookup t = some d)

/-- An assembler whose tables answer every `operator[]` request as the tables
of a freshly constructed assembler do. -/
def Agrees (a : RiscVAssembler) : Prop :=
  (∀ t, (a.registerMap.lookup t).getD "" = regField t) ∧
  (∀ t, (a.instructionMap.lookup t).getD InstructionInfo.zero
      = (instructionMap.lookup t).getD InstructionInfo.zero)

/-- The assembler object after a sequence of calls of `parseAndEncode`; each
call is given with the indeterminate value of its uninitialised local. -/
def runLines (a : RiscVAssembler) : List (Int × String) → RiscVAssembler
  | [] => a
  | (u, line) :: rest => runLines (parseAndEncode a u line).2 rest

/-- Spec: the B-type mnemonics. -/
def bTypeMnemonics : List String := ["beq", "bne", "blt", "bge", "bltu", "bgeu"]

/-- Spec: the J-type mnemonic. -/
def jTypeMnemonics : List String := ["jal"]

/-- Spec: the S-type mnemonics. -/
def sTypeMnemonics : List String := ["sb", "sh", "sw"]

/-- Spec: the U-type mnemonics. -/
def uTypeMnemonics : List String := ["lui", "auipc"]

/-- The format tag the table of a fresh assembler records for a mnemonic, if it
has a descriptor for it. -/
def formatOf (k : String) : Option Char :=
  (fresh.instructionMap.lookup k).map (fun i => i.type)

/-- Spec: bit `i` of an integer in two's complement, as a character. -/
def bitOf (v : Int) (i : Nat) : Char :=
  if v / 2 ^ i % 2 = 1 then '1' else '0'

/-- Spec: bits `hi` down to `lo` of an integer, most significant first. -/
def bitField (v : Int) (hi lo : Nat) : String :=
  ⟨(List.range (hi + 1 - lo)).map (fun k => bitOf v (hi - k))⟩

/-- Spec: the text holds a token, i.e. a character that is not whitespace. -/
def hasToken (s : List Char) : Bool := !(s.dropWhile isspace).isEmpty

/-- Spec: the text that follows the first token. -/
def skipToken (s : List Char) : List Char :=
  (s.dropWhile isspace).dropWhile (fun c => !isspace c)

/-- Spec: the text that follows the first `n` tokens. -/
def skipTokens : Nat → List Char → List Char
  | 0, s => s
  | n + 1, s => skipTokens n (skipToken s)

/-- Spec: token number `n` of a line, the mnemonic being number 0; the empty
string when the line has no such token. -/
def nthToken (n : Nat) (line : String) : String :=
  ⟨((skipTokens n line.data).dropWhile isspace).takeWhile (fun c => !isspace c)⟩

/-- The position at which a line of the given format carries its immediate:
token 3 for `I` and `B`, token 2 for `J`, `S` and `U`, none otherwise. -/
def immediatePosition (c : Char) : Option Nat :=
  if c = 'I' ∨ c = 'B' then some 3
  else if c = 'J' ∨ c = 'S' ∨ c = 'U' then some 2
  else none

/-- Spec: the line gives its immediate, so that the call stores into its local
`immediate` before reading it: whenever the mnemonic has a descriptor whose
format takes an immediate, the line has a token at the immediate's position. -/
def ImmediateGiven (line : String) : Prop :=
  ∀ c n, formatOf (firstToken line) = some c → immediatePosition c = some n →
    hasToken (skipTokens n line.data) = true

/-- A stream state `st` stands for the unread text `r`: either it is not failed
and holds `r` (with `eofbit` only when `r` is empty), or it is failed and `r`
has no token left. -/
def Tracks (st : IStream) (r : List Char) : Prop :=
  (st.failbit = false ∧ st.buf = r ∧ (st.eofbit = true → r = [])) ∨
  (st.failbit = true ∧ hasToken r = false)

/-- The source's `t.substr(0, t.size() - 1)`: `t` without its last character. -/
def stripLast (t : String) : String := substr t 0 (sizeMinusOne t)

/-- What `registerMap[k]` does to the register table: nothing when `k` has an
entry, otherwise the entry `(k, "")` is appended. -/
def insertAbsent (m : List (String × String)) (k : String) : List (String × String) :=
  if (m.lookup k).isSome then m else m ++ [(k, "")]

/-- The token the store branch reads as its base register: the first token of
what the extraction of the offset leaves of the text after the first two
tokens (empty when that extraction fails). -/
def storeBaseToken (line : String) : String :=
  (extractString (extractInt ⟨skipTokens 2 line.data, false, false⟩ 0).1 "").2

/-- The register names a call looks up in the register table, in the order of
the lookups, when the descriptor of the line's mnemonic has format tag `c`:
`rs2, rs1, rd` for `R`; `rs1, rd` for `I`; `rs2, rs1` for `B` and `S`; `rd`
for `J` and `U`; none for any other tag. -/
def registerOperands (c : Char) (line : String) : List String :=
  if c = 'R' then
    [nthToken 3 line, stripLast (nthToken 2 line), stripLast (nthToken 1 line)]
  else if c = 'I' then [stripLast (nthToken 2 line), stripLast (nthToken 1 line)]
  else if c = 'B' then [stripLast (nthToken 2 line), stripLast (nthToken 1 line)]
  else if c = 'J' then [stripLast (nthToken 1 line)]
  else if c = 'S' then [stripLast (nthToken 1 line), stripLast (storeBaseToken line)]
  else if c = 'U' then [nthToken 1 line]
  else []

/-- A token: non-empty and free of whitespace. -/
def IsToken (t : List Char) : Prop := t ≠ [] ∧ ∀ c ∈ t, isspace c = false

/-! ## Tokenising -/

theorem takeWhile_run (p : Char → Bool) (tok rest : List Char)
    (h : ∀ c ∈ tok, p c = true) (hr : ∀ c ∈ rest.head?, p c = false) :
    (tok ++ rest).takeWhile p = tok := by
  induction tok with
  | nil =>
    cases rest with
    | nil => rfl
    | cons c cs => simp [List.takeWhile, hr c (by simp)]
  | cons c cs ih =>
    have hc : p c = true := h c (by simp)
    simp only [List.cons_append, List.takeWhile_cons, hc, if_true]
    rw [ih (fun d hd => h d (by simp [hd]))]

theorem dropWhile_run (p : Char → Bool) (tok rest : List Char)
    (h : ∀ c ∈ tok, p c = true) (hr : ∀ c ∈ rest.head?, p c = false) :
    (tok ++ rest).dropWhile p = rest := by
  induction tok with
  | nil =>
    cases rest with
    | nil => rfl
    | cons c cs => simp [List.dropWhile, hr c (by simp)]
  | cons c cs ih =>
    have hc : p c = true := h c (by simp)
    simp only [List.cons_append, List.dropWhile_cons, hc, if_true]
    exact ih (fun d hd => h d (by simp [hd]))

theorem sentry_token (t rest : List Char) (ht : IsToken t) :
    sentry ⟨t ++ rest, false, false⟩ = (⟨t ++ rest, false, false⟩, true) := by
  obtain ⟨hne, hns⟩ := ht
  cases t with
  | nil => exact absurd rfl hne
  | cons c cs =>
    have hc : isspace c = false := hns c (by simp)
    simp [sentry, List.dropWhile, hc]

theorem sentry_space_token (t rest : List Char) (ht : IsToken t) :
    sentry ⟨' ' :: (t ++ rest), false, false⟩ = (⟨t ++ rest, false, false⟩, true) := by
  obtain ⟨hne, hns⟩ := ht
  cases t with
  | nil => exact absurd rfl hne
  | cons c cs =>
    have hc : isspace c = false := hns c (by simp)
    have hs : isspace ' ' = true := by decide
    simp [sentry, List.dropWhile, hc, hs]

theorem extract_after (t rest : List Char) (ht : IsToken t)
    (hr : ∀ c ∈ rest.head?, isspace c = true) :
    ((t ++ rest).dropWhile (fun c => !isspace c) = rest) ∧
    ((t ++ rest).takeWhile (fun c => !isspace c) = t) := by
  constructor
  · exact dropWhile_run _ t rest (fun c hc => by simp [ht.2 c hc])
      (fun c hc => by simp [hr c hc])
  · exact takeWhile_run _ t rest (fun c hc => by simp [ht.2 c hc])
      (fun c hc => by simp [hr c hc])

/-- First token of a good stream, followed by a blank. -/
theorem extractString_first (t rest : List Char) (old : String) (ht : IsToken t) :
    extractString ⟨t ++ ' ' :: rest, false, false⟩ old
      = (⟨' ' :: rest, false, false⟩, ⟨t⟩) := by
  have h := extract_after t (' ' :: rest) ht (by simp; decide)
  simp only [extractString, sentry_token t _ ht, if_true, h.1, h.2]
  rfl

/-- A middle token: preceded and followed by one blank. -/
theorem extractString_mid (t rest : List Char) (old : String) (ht : IsToken t) :
    extractString ⟨' ' :: (t ++ ' ' :: rest), false, false⟩ old
      = (⟨' ' :: rest, false, false⟩, ⟨t⟩) := by
  have h := extract_after t (' ' :: rest) ht (by simp; decide)
  simp only [extractString, sentry_space_token t _ ht, if_true, h.1, h.2]
  rfl

/-- The last token of the line: reading it reaches the end of input. -/
theorem extractString_last (t : List Char) (old : String) (ht : IsToken t) :
    extractString ⟨' ' :: t, false, false⟩ old = (⟨[], true, false⟩, ⟨t⟩) := by
  have h := extract_after t [] ht (by simp)
  have hs := sentry_space_token t [] ht
  simp only [List.append_nil] at h hs
  simp only [extractString, hs, if_true, h.1, h.2]
  rfl

/-! ## Table lookups -/

theorem lookup_mem {V : Type} (l : List (String × V)) (k : String) (v : V)
    (h : l.lookup k = some v) : (k, v) ∈ l := by
  induction l with
  | nil => simp [List.lookup] at h
  | cons p ps ih =>
    obtain ⟨k1, v1⟩ := p
    by_cases hk : k = k1
    · subst hk
      simp [List.lookup] at h
      simp [h]
    · have hb : (k == k1) = false := by simpa using hk
      simp only [List.lookup, hb] at h
      exact List.mem_cons_of_mem _ (ih h)

theorem index_found {V : Type} (dflt : V) (m : List (String × V)) (k : String) (v : V)
    (h : m.lookup k = some v) : index dflt m k = (v, m) := by
  simp [index, h]

theorem index_absent {V : Type} (dflt : V) (m : List (String × V)) (k : String)
    (h : m.lookup k = none) : index dflt m k = (dflt, m ++ [(k, dflt)]) := by
  simp [index, h]

/-- Dropping the last character through `substr(0, size() - 1)`. -/
theorem substr_init (t : List Char) (c : Char) (h : t.length + 1 < 2 ^ 64) :
    substr ⟨t ++ [c]⟩ 0 (sizeMinusOne ⟨t ++ [c]⟩) = ⟨t⟩ := by
  have hn : sizeMinusOne ⟨t ++ [c]⟩ = t.length := by
    simp only [sizeMinusOne, String.length, List.length_append, List.length_singleton]
    omega
  simp [substr, hn]

/-! ## Parsing an R-type line -/

theorem parse_RType (a : RiscVAssembler) (u : Int) (m : String) (info : InstructionInfo)
    (t1 t2 t3 : List Char) (hm : IsToken m.data) (h1 : IsToken t1) (h2 : IsToken t2)
    (h3 : IsToken t3) (hl : a.instructionMap.lookup m = some info)
    (hR : info.type = 'R') :
    parseAndEncode a u ⟨m.data ++ ' ' :: (t1 ++ ' ' :: (t2 ++ ' ' :: t3))⟩
      = encodeRType a info (substr ⟨t1⟩ 0 (sizeMinusOne ⟨t1⟩))
          (substr ⟨t2⟩ 0 (sizeMinusOne ⟨t2⟩)) ⟨t3⟩ := by
  simp only [parseAndEncode, extractString_first _ _ _ hm, index_found _ _ _ _ hl, hR,
    if_true, extractString_mid _ _ _ h1, extractString_mid _ _ _ h2,
    extractString_last _ _ h3]

theorem regName_token : ∀ n, n < 32 →
    IsToken (regName n).data ∧ IsToken ((regName n).data ++ [',']) ∧
    (regName n).data.length + 1 < 2 ^ 64 ∧
    registerMap.lookup (regName n) = some (bin5 n) := by
  unfold IsToken
  decide

theorem table_RType : ∀ p ∈ instructionMap, p.1 ∈ rTypeMnemonics →
    IsToken p.1.data ∧ p.2.type = 'R' ∧
    (p.2.funct7 ++ bin5 0 ++ bin5 0 ++ p.2.funct3 ++ bin5 0 ++ p.2.opcode).length = 32 := by
  unfold IsToken
  decide

theorem bin5_length (n : Nat) : (bin5 n).length = 5 := by
  simp [bin5, binary, String.length]

theorem line3_data (m x y z : String) :
    m ++ " " ++ x ++ ", " ++ y ++ ", " ++ z
      = ⟨m.data ++ ' ' :: ((x.data ++ [',']) ++ ' ' :: ((y.data ++ [',']) ++ ' ' :: z.data))⟩ := by
  apply String.ext
  simp [String.data_append]

/-- C1. For every R-type mnemonic `m` and registers `rd`, `rs1`, `rs2` in
`x0..x31`, `parseAndEncode` on the line `m rd, rs1, rs2` returns the
32-character string `funct7 ++ bin5 rs2 ++ bin5 rs1 ++ funct3 ++ bin5 rd ++ opcode`,
the three fixed fields being those the instruction table records for `m`. -/
theorem rtype_encoding (m : String) (info : InstructionInfo) (rd rs1 rs2 : Nat) (u : Int)
    (hm : m ∈ rTypeMnemonics) (hinfo : instructionMap.lookup m = some info)
    (hrd : rd < 32) (hrs1 : rs1 < 32) (hrs2 : rs2 < 32) :
    (parseAndEncode fresh u
        (m ++ " " ++ regName rd ++ ", " ++ regName rs1 ++ ", " ++ regName rs2)).1
      = info.funct7 ++ bin5 rs2 ++ bin5 rs1 ++ info.funct3 ++ bin5 rd ++ info.opcode
    ∧ (parseAndEncode fresh u
        (m ++ " " ++ regName rd ++ ", " ++ regName rs1 ++ ", " ++ regName rs2)).1.length
      = 32 := by
  obtain ⟨hmt, hR, hlen⟩ := table_RType (m, info) (lookup_mem _ _ _ hinfo) hm
  obtain ⟨-, hd, hdl, hdv⟩ := regName_token rd hrd
  obtain ⟨-, h1, h1l, h1v⟩ := regName_token rs1 hrs1
  obtain ⟨h2, -, -, h2v⟩ := regName_token rs2 hrs2
  have key : (parseAndEncode fresh u
        (m ++ " " ++ regName rd ++ ", " ++ regName rs1 ++ ", " ++ regName rs2)).1
      = info.funct7 ++ bin5 rs2 ++ bin5 rs1 ++ info.funct3 ++ bin5 rd ++ info.opcode := by
    rw [line3_data, parse_RType fresh u m info _ _ _ hmt hd h1 h2 hinfo hR,
      substr_init _ _ hdl, substr_init _ _ h1l]
    simp only [encodeRType, fresh, index_found _ _ _ _ h2v, index_found _ _ _ _ h1v,
      index_found _ _ _ _ hdv]
  refine ⟨key, ?_⟩
  rw [key]
  simp only [String.length_append, bin5_length] at hlen ⊢
  exact hlen

/-- C1, instance: `add x1, x2, x3` yields `00000000001100010000000010110011`. -/
theorem rtype_encoding_witness :
    (parseAndEncode fresh 0 "add x1, x2, x3").1 = "00000000001100010000000010110011" ∧
    (parseAndEncode fresh 0 "add x1, x2, x3").1.length = 32 :=
  rtype_encoding "add" ⟨"0110011", "000", "0000000", 'R'⟩ 1 2 3 0
    (by decide) (by decide) (by decide) (by decide) (by decide)


/-! ## Bit strings -/

theorem bitset_binary_aux (n U : Nat) :
    (List.range n).map (fun i => if U / 2 ^ (n - 1 - i) % 2 = 1 then '1' else '0')
      = binary n U := by
  induction n generalizing U with
  | zero => rfl
  | succ n ih =>
    rw [List.range_succ, List.map_append, binary, ← ih (U / 2)]
    congr 1
    · apply List.map_congr_left
      intro i hi
      have hi2 : i < n := List.mem_range.mp hi
      have : n + 1 - 1 - i = (n - 1 - i) + 1 := by omega
      rw [this, pow_succ', Nat.div_div_eq_div_mul]
    · simp

theorem bitset_eq_binary (n : Nat) (v : Int) :
    bitset n v = ⟨binary n (v % 2 ^ 64).toNat⟩ := by
  simp only [bitset, bitset_binary_aux]

theorem binary_mod (n u : Nat) : binary n (u % 2 ^ n) = binary n u := by
  induction n generalizing u with
  | zero => rfl
  | succ n ih =>
    simp only [binary]
    rw [pow_succ', Nat.mod_mul_right_div_self, ih (u / 2),
      Nat.mod_mod_of_dvd u (Dvd.intro _ rfl)]

theorem binary_congr (n u v : Nat) (h : u % 2 ^ n = v % 2 ^ n) : binary n u = binary n v := by
  rw [← binary_mod n u, h, binary_mod]

theorem binary_length (n u : Nat) : (binary n u).length = n := by
  induction n generalizing u with
  | zero => rfl
  | succ n ih => simp [binary, ih]

/-- In the signed 12-bit range `bitset<12>` prints the two's-complement pattern. -/
theorem bitset12_twos (v : Int) (h1 : -2048 ≤ v) (h2 : v ≤ 2047) :
    bitset 12 v = twos12 v := by
  rw [bitset_eq_binary, twos12]
  congr 1
  apply binary_congr
  unfold twos
  split <;> omega


/-! ## Decimal literals -/

theorem digitChar_digit : ∀ k, k < 10 →
    isdigit (Nat.digitChar k) = true ∧ (Nat.digitChar k).toNat - 48 = k ∧
    isspace (Nat.digitChar k) = false := by
  decide

theorem toDigitsCore_spec (fuel : Nat) : ∀ (n : Nat) (ds : List Char), n < fuel →
    ∃ pre : List Char, Nat.toDigitsCore 10 fuel n ds = pre ++ ds ∧ pre ≠ [] ∧
      (∀ c ∈ pre, isdigit c = true ∧ isspace c = false) ∧
      ∀ acc : Nat, pre.foldl (fun a c => a * 10 + (c.toNat - 48)) acc
        = acc * 10 ^ pre.length + n := by
  induction fuel with
  | zero => intro n ds h; omega
  | succ fuel ih =>
    intro n ds h
    obtain ⟨hd, hv, hs⟩ := digitChar_digit (n % 10) (Nat.mod_lt _ (by decide))
    by_cases h0 : n / 10 = 0
    · refine ⟨[Nat.digitChar (n % 10)], ?_, by simp, ?_, ?_⟩
      · simp [Nat.toDigitsCore, h0]
      · intro c hc
        simp only [List.mem_singleton] at hc
        subst hc
        exact ⟨hd, hs⟩
      · intro acc
        simp only [List.foldl, List.length_singleton, pow_one, hv]
        omega
    · obtain ⟨pre, hpre, -, hall, hval⟩ :=
        ih (n / 10) (Nat.digitChar (n % 10) :: ds) (by omega)
      refine ⟨pre ++ [Nat.digitChar (n % 10)], ?_, by simp, ?_, ?_⟩
      · simp [Nat.toDigitsCore, h0, hpre]
      · intro c hc
        rcases List.mem_append.mp hc with hc | hc
        · exact hall c hc
        · simp only [List.mem_singleton] at hc
          subst hc
          exact ⟨hd, hs⟩
      · intro acc
        simp only [List.foldl_append, List.foldl, hval, hv, List.length_append,
          List.length_singleton, pow_succ]
        have := Nat.div_add_mod n 10
        nlinarith [this]

/-- The decimal rendering of a natural number: digits only, and reading them
back gives the number. -/
theorem repr_digits (n : Nat) :
    (toString n).data ≠ [] ∧
    (∀ c ∈ (toString n).data, isdigit c = true ∧ isspace c = false) ∧
    digitsValue (toString n).data = n := by
  obtain ⟨pre, hpre, hne, hall, hval⟩ := toDigitsCore_spec (n + 1) n [] (by omega)
  have hd : (toString n).data = pre := by
    show (Nat.toDigits 10 n) = pre
    simp [Nat.toDigits, hpre]
  rw [hd]
  refine ⟨hne, hall, ?_⟩
  simpa [digitsValue] using hval 0


theorem extractInt_digits (ds : List Char) (old : Int) (hne : ds ≠ [])
    (hall : ∀ c ∈ ds, isdigit c = true ∧ isspace c = false) :
    (extractInt ⟨' ' :: ds, false, false⟩ old).2 = saturate (digitsValue ds) := by
  have ht : IsToken ds := ⟨hne, fun c hc => (hall c hc).2⟩
  have hs := sentry_space_token ds [] ht
  simp only [List.append_nil] at hs
  have htake := takeWhile_run isdigit ds [] (fun c hc => (hall c hc).1) (by simp)
  simp only [List.append_nil] at htake
  obtain ⟨c, cs, rfl⟩ := List.exists_cons_of_ne_nil hne
  have hc := (hall c (by simp)).1
  have hm : c ≠ '-' := by rintro rfl; exact absurd hc (by decide)
  have hp : c ≠ '+' := by rintro rfl; exact absurd hc (by decide)
  simp only [extractInt, hs, if_true, List.head?_cons, Option.some.injEq, hm, hp, or_self,
    if_false, htake, List.isEmpty_cons, Bool.false_eq_true, saturate]
  split_ifs <;> rfl

theorem extractInt_minus_digits (ds : List Char) (old : Int) (hne : ds ≠ [])
    (hall : ∀ c ∈ ds, isdigit c = true ∧ isspace c = false) :
    (extractInt ⟨' ' :: '-' :: ds, false, false⟩ old).2
      = saturate (-(digitsValue ds : Int)) := by
  have ht : IsToken ('-' :: ds) :=
    ⟨by simp, fun c hc => by
      rcases List.mem_cons.mp hc with h | h
      · subst h; decide
      · exact (hall c h).2⟩
  have hs := sentry_space_token ('-' :: ds) [] ht
  simp only [List.append_nil] at hs
  have htake := takeWhile_run isdigit ds [] (fun c hc => (hall c hc).1) (by simp)
  simp only [List.append_nil] at htake
  obtain ⟨c, cs, rfl⟩ := List.exists_cons_of_ne_nil hne
  simp only [extractInt, hs, if_true, List.head?_cons, true_or, List.tail_cons, htake,
    List.isEmpty_cons, Bool.false_eq_true, if_false, saturate]
  split_ifs <;> rfl

/-- Reading a decimal literal that ends the line stores its value, saturated to
the `int` range. -/
theorem extractInt_literal (imm old : Int) :
    (extractInt ⟨' ' :: (toString imm).data, false, false⟩ old).2 = saturate imm := by
  cases imm with
  | ofNat n =>
    obtain ⟨hne, hall, hval⟩ := repr_digits n
    have := extractInt_digits _ old hne hall
    rw [hval] at this
    exact this
  | negSucc n =>
    obtain ⟨hne, hall, hval⟩ := repr_digits (n + 1)
    have := extractInt_minus_digits _ old hne hall
    rw [hval] at this
    exact this

/-! ## Parsing an I-type line -/

theorem parse_IType (a : RiscVAssembler) (u : Int) (m : String) (info : InstructionInfo)
    (t1 t2 : List Char) (imm : Int) (hm : IsToken m.data) (h1 : IsToken t1)
    (h2 : IsToken t2) (hl : a.instructionMap.lookup m = some info)
    (hI : info.type = 'I') :
    parseAndEncode a u ⟨m.data ++ ' ' :: (t1 ++ ' ' :: (t2 ++ ' ' :: (toString imm).data))⟩
      = encodeIType a info (substr ⟨t1⟩ 0 (sizeMinusOne ⟨t1⟩))
          (substr ⟨t2⟩ 0 (sizeMinusOne ⟨t2⟩)) (saturate imm) := by
  simp only [parseAndEncode, extractString_first _ _ _ hm, index_found _ _ _ _ hl, hI,
    if_true, extractString_mid _ _ _ h1, extractString_mid _ _ _ h2,
    extractInt_literal]
  rw [if_neg (by decide)]

theorem table_IType : ∀ p ∈ instructionMap, p.1 ∈ iTypeMnemonics →
    IsToken p.1.data ∧ p.2.type = 'I' ∧ p.2.funct3.length = 3 ∧ p.2.opcode.length = 7 := by
  unfold IsToken
  decide

theorem plain_sub_iType : ∀ m ∈ plainITypeMnemonics, m ∈ iTypeMnemonics := by
  decide

theorem table_bits : ∀ p ∈ instructionMap,
    IsBitString p.2.opcode ∧ IsBitString p.2.funct3 ∧ IsBitString p.2.funct7 := by
  unfold IsBitString
  decide

theorem isBitString_append (s t : String) (hs : IsBitString s) (ht : IsBitString t) :
    IsBitString (s ++ t) := by
  intro c hc
  rw [String.data_append] at hc
  rcases List.mem_append.mp hc with h | h
  · exact hs c h
  · exact ht c h

theorem binary_bits (n u : Nat) : ∀ c ∈ binary n u, c = '0' ∨ c = '1' := by
  induction n generalizing u with
  | zero => simp [binary]
  | succ n ih =>
    intro c hc
    simp only [binary, List.mem_append, List.mem_singleton] at hc
    rcases hc with h | h
    · exact ih _ c h
    · subst h
      split <;> simp

theorem bin5_bits (n : Nat) : IsBitString (bin5 n) := binary_bits 5 n

/-- The general I-type layout on a fresh assembler, for any literal. -/
theorem itype_layout (m : String) (info : InstructionInfo) (rd rs1 : Nat) (imm u : Int)
    (hm : m ∈ iTypeMnemonics) (hinfo : instructionMap.lookup m = some info)
    (hrd : rd < 32) (hrs1 : rs1 < 32) :
    (parseAndEncode fresh u
        (m ++ " " ++ regName rd ++ ", " ++ regName rs1 ++ ", " ++ toString imm)).1
      = bitset 12 (saturate imm) ++ bin5 rs1 ++ info.funct3 ++ bin5 rd ++ info.opcode := by
  obtain ⟨hmt, hI, -, -⟩ := table_IType (m, info) (lookup_mem _ _ _ hinfo) hm
  obtain ⟨-, hd, hdl, hdv⟩ := regName_token rd hrd
  obtain ⟨-, h1, h1l, h1v⟩ := regName_token rs1 hrs1
  rw [line3_data, parse_IType fresh u m info _ _ imm hmt hd h1 hinfo hI,
    substr_init _ _ hdl, substr_init _ _ h1l]
  simp only [encodeIType, fresh, index_found _ _ _ _ h1v, index_found _ _ _ _ hdv]

theorem saturate_id (v : Int) (h1 : -2147483648 ≤ v) (h2 : v ≤ 2147483647) :
    saturate v = v := by
  unfold saturate
  split_ifs <;> omega

/-- C2. For every non-shift I-type mnemonic `m`, registers `rd`, `rs1` in
`x0..x31` and every immediate with `-2048 ≤ imm ≤ 2047`, `parseAndEncode` on the
line `m rd, rs1, imm` returns the 32-character string
`twos12 imm ++ bin5 rs1 ++ funct3 ++ bin5 rd ++ opcode`. -/
theorem itype_encoding (m : String) (info : InstructionInfo) (rd rs1 : Nat) (imm u : Int)
    (hm : m ∈ plainITypeMnemonics) (hinfo : instructionMap.lookup m = some info)
    (hrd : rd < 32) (hrs1 : rs1 < 32) (hlo : -2048 ≤ imm) (hhi : imm ≤ 2047) :
    (parseAndEncode fresh u
        (m ++ " " ++ regName rd ++ ", " ++ regName rs1 ++ ", " ++ toString imm)).1
      = twos12 imm ++ bin5 rs1 ++ info.funct3 ++ bin5 rd ++ info.opcode
    ∧ (parseAndEncode fresh u
        (m ++ " " ++ regName rd ++ ", " ++ regName rs1 ++ ", " ++ toString imm)).1.length
      = 32 := by
  have hmI := plain_sub_iType m hm
  obtain ⟨-, -, h3, h7⟩ := table_IType (m, info) (lookup_mem _ _ _ hinfo) hmI
  have key := itype_layout m info rd rs1 imm u hmI hinfo hrd hrs1
  rw [saturate_id imm (by omega) (by omega), bitset12_twos imm hlo hhi] at key
  refine ⟨key, ?_⟩
  rw [key]
  have h12 : (twos12 imm).length = 12 := binary_length 12 _
  simp only [String.length_append, bin5_length, h12]
  simp only at h3 h7
  omega

/-- C2, instance: `addi x2, x1, 10` yields `00000000101000001000000100010011`. -/
theorem itype_encoding_witness :
    (parseAndEncode fresh 0 "addi x2, x1, 10").1 = "00000000101000001000000100010011" ∧
    (parseAndEncode fresh 0 "addi x2, x1, 10").1.length = 32 :=
  itype_encoding "addi" ⟨"0010011", "000", "", 'I'⟩ 2 1 10 0
    (by decide) (by decide) (by decide) (by decide) (by decide) (by decide)

/-! ## Immediates outside the 12-bit range -/

theorem bitset12_mod (v : Int) : bitset 12 v = ⟨binary 12 (v % 4096).toNat⟩ := by
  rw [bitset_eq_binary]
  congr 1
  apply binary_congr
  omega

/-- C5, as stated, fails: `addi x1, x2, 5000` and an immediate of `2048` are not
rejected; each returns a 32-character bit string. -/
theorem itype_range_counterexample :
    (parseAndEncode fresh 0 "addi x1, x2, 5000").1 = "00111000100000010000000010010011" ∧
    IsBitString (parseAndEncode fresh 0 "addi x1, x2, 5000").1 ∧
    (parseAndEncode fresh 0 "addi x1, x2, 2048").1 = "10000000000000010000000010010011" ∧
    IsBitString (parseAndEncode fresh 0 "addi x1, x2, 2048").1 := by
  unfold IsBitString
  decide

/-- C5, amended. For every I-type mnemonic, registers `rd`, `rs1` in `x0..x31`
and every integer `imm` outside `[-2048, 2047]`, `parseAndEncode` on
`m rd, rs1, imm` does not fail: it returns the 32-character bit string whose
immediate field is the 12-bit binary of `c mod 4096`, where `c` is `imm`
saturated to the 32-bit `int` range. -/
theorem itype_out_of_range (m : String) (info : InstructionInfo) (rd rs1 : Nat)
    (imm u : Int) (hm : m ∈ iTypeMnemonics) (hinfo : instructionMap.lookup m = some info)
    (hrd : rd < 32) (hrs1 : rs1 < 32) (_hout : imm < -2048 ∨ 2047 < imm) :
    (parseAndEncode fresh u
        (m ++ " " ++ regName rd ++ ", " ++ regName rs1 ++ ", " ++ toString imm)).1
      = ⟨binary 12 (saturate imm % 4096).toNat⟩ ++ bin5 rs1 ++ info.funct3 ++ bin5 rd
          ++ info.opcode
    ∧ (parseAndEncode fresh u
        (m ++ " " ++ regName rd ++ ", " ++ regName rs1 ++ ", " ++ toString imm)).1.length
      = 32
    ∧ IsBitString (parseAndEncode fresh u
        (m ++ " " ++ regName rd ++ ", " ++ regName rs1 ++ ", " ++ toString imm)).1 := by
  have hmem := lookup_mem _ _ _ hinfo
  obtain ⟨-, -, h3, h7⟩ := table_IType (m, info) hmem hm
  obtain ⟨hbo, hb3, -⟩ := table_bits (m, info) hmem
  have key := itype_layout m info rd rs1 imm u hm hinfo hrd hrs1
  rw [bitset12_mod] at key
  refine ⟨key, ?_, ?_⟩
  · rw [key]
    have h12 : (⟨binary 12 (saturate imm % 4096).toNat⟩ : String).length = 12 :=
      binary_length 12 _
    simp only [String.length_append, bin5_length, h12]
    simp only at h3 h7
    omega
  · rw [key]
    exact isBitString_append _ _ (isBitString_append _ _ (isBitString_append _ _
      (isBitString_append _ _ (binary_bits 12 _) (bin5_bits rs1)) hb3) (bin5_bits rd)) hbo

/-- C5, amended, instance: `addi x1, x2, 5000` carries the bits of `904`. -/
theorem itype_out_of_range_witness :
    (parseAndEncode fresh 0 "addi x1, x2, 5000").1
      = "001110001000" ++ "00010" ++ "000" ++ "00001" ++ "0010011" ∧
    (parseAndEncode fresh 0 "addi x1, x2, 5000").1.length = 32 ∧
    IsBitString (parseAndEncode fresh 0 "addi x1, x2, 5000").1 :=
  itype_out_of_range "addi" ⟨"0010011", "000", "", 'I'⟩ 1 2 5000 0
    (by decide) (by decide) (by decide) (by decide) (by decide)

/-! ## Dispatch on the first token -/

theorem extractString_firstToken (line : String) :
    (extractString ⟨line.data, false, false⟩ "").2 = firstToken line := by
  unfold extractString sentry firstToken
  cases h : List.dropWhile isspace line.data with
  | nil => simp [h]
  | cons c cs => simp [h]

theorem table_types : ∀ p ∈ instructionMap,
    (p.2.type = 'R' ∨ p.2.type = 'I' ∨ p.2.type = 'B' ∨ p.2.type = 'J' ∨ p.2.type = 'S' ∨
      p.2.type = 'U') ∧ p.2.opcode.length = 7 ∧ p.2.opcode.data.getLast? = some '1' ∧
    p.1 ∈ supportedMnemonics := by
  decide

theorem supported_lookup : ∀ m ∈ supportedMnemonics, (instructionMap.lookup m).isSome := by
  decide

/-- Whatever the operands, a line whose mnemonic is in the table is encoded by
one of the six encoders, each of which ends its result with the opcode. -/
theorem supported_result (line : String) (u : Int) (info : InstructionInfo)
    (h : instructionMap.lookup (firstToken line) = some info) :
    ∃ pre : String, (parseAndEncode fresh u line).1 = pre ++ info.opcode := by
  obtain ⟨ht, -, -, -⟩ := table_types (firstToken line, info) (lookup_mem _ _ _ h)
  simp only [parseAndEncode, extractString_firstToken, fresh, index_found _ _ _ _ h]
  split_ifs with h1 h2 h3 h4 h5 h6
  · exact ⟨_, rfl⟩
  · exact ⟨_, rfl⟩
  · exact ⟨_, rfl⟩
  · exact ⟨_, rfl⟩
  · exact ⟨_, rfl⟩
  · exact ⟨_, rfl⟩
  · simp only at ht
    tauto

theorem unsupported_result (line : String) (u : Int)
    (h : instructionMap.lookup (firstToken line) = none) :
    (parseAndEncode fresh u line).1 = "Unknown instruction" := by
  simp only [parseAndEncode, extractString_firstToken, fresh, index_absent _ _ _ h]
  rfl

theorem drop_suffix (pre op : String) :
    (pre ++ op).data.drop ((pre ++ op).length - op.length) = op.data := by
  have h : (pre ++ op).length - op.length = pre.data.length := by
    rw [String.length_append]
    simp only [String.length]
    omega
  rw [h, String.data_append, List.drop_left]

/-- C3. For every supported mnemonic and every operand list (so in particular
every syntactically valid one), the last 7 characters of the string returned
by `parseAndEncode` are the opcode the instruction table records for the
mnemonic. -/
theorem opcode_suffix (line : String) (u : Int)
    (hm : firstToken line ∈ supportedMnemonics) :
    ∃ info, instructionMap.lookup (firstToken line) = some info ∧
      (parseAndEncode fresh u line).1.data.drop ((parseAndEncode fresh u line).1.length - 7)
        = info.opcode.data := by
  obtain ⟨info, hinfo⟩ := Option.isSome_iff_exists.mp (supported_lookup _ hm)
  obtain ⟨-, h7, -, -⟩ := table_types (firstToken line, info) (lookup_mem _ _ _ hinfo)
  obtain ⟨pre, hpre⟩ := supported_result line u info hinfo
  refine ⟨info, hinfo, ?_⟩
  simp only at h7
  rw [hpre, ← h7]
  exact drop_suffix pre info.opcode

/-- C3, instance: the last 7 characters for `add x31, x30, x29` are the opcode
the table records for `add`. -/
theorem opcode_suffix_witness :
    ∃ info, instructionMap.lookup (firstToken "add x31, x30, x29") = some info ∧
      (parseAndEncode fresh 0 "add x31, x30, x29").1.data.drop
          ((parseAndEncode fresh 0 "add x31, x30, x29").1.length - 7)
        = info.opcode.data :=
  opcode_suffix "add x31, x30, x29" 0 (by decide)

/-- C4. A line whose first whitespace-separated token is not a supported
mnemonic (the empty line included) gets the result `Unknown instruction`, which
is not a bit string; a line whose first token is a supported mnemonic never
gets that result. -/
theorem unknown_mnemonic (line : String) (u : Int) :
    (firstToken line ∉ supportedMnemonics →
      (parseAndEncode fresh u line).1 = "Unknown instruction" ∧
      ¬ IsBitString (parseAndEncode fresh u line).1) ∧
    (firstToken line ∈ supportedMnemonics →
      (parseAndEncode fresh u line).1 ≠ "Unknown instruction") := by
  constructor
  · intro hm
    have hnone : instructionMap.lookup (firstToken line) = none := by
      cases h : instructionMap.lookup (firstToken line) with
      | none => rfl
      | some v => exact absurd (table_types _ (lookup_mem _ _ _ h)).2.2.2 hm
    rw [unsupported_result line u hnone]
    refine ⟨rfl, ?_⟩
    intro hb
    have := hb 'U' (by decide)
    revert this
    decide
  · intro hm heq
    obtain ⟨info, hinfo⟩ := Option.isSome_iff_exists.mp (supported_lookup _ hm)
    obtain ⟨-, -, hlast, -⟩ := table_types (firstToken line, info) (lookup_mem _ _ _ hinfo)
    obtain ⟨pre, hpre⟩ := supported_result line u info hinfo
    rw [heq] at hpre
    have h1 := congrArg (fun s : String => s.data.getLast?) hpre
    have h2 : ("Unknown instruction" : String).data.getLast? = some 'n' := by decide
    simp only [String.data_append, List.getLast?_append, hlast, h2, Option.or] at h1
    exact absurd h1 (by decide)

/-- C4, instances: `foo x1, x2, x3` and the empty line are unknown, `add x1, x2, x3`
is not. -/
theorem unknown_mnemonic_witness :
    (parseAndEncode fresh 0 "foo x1, x2, x3").1 = "Unknown instruction" ∧
    (parseAndEncode fresh 0 "").1 = "Unknown instruction" ∧
    (parseAndEncode fresh 0 "add x1, x2, x3").1 ≠ "Unknown instruction" :=
  ⟨((unknown_mnemonic "foo x1, x2, x3" 0).1 (by decide)).1,
   ((unknown_mnemonic "" 0).1 (by decide)).1,
   (unknown_mnemonic "add x1, x2, x3" 0).2 (by decide)⟩

/-! ## Register tokens that do not resolve -/

theorem lookup_append_singleton {V : Type} (l : List (String × V)) (k t : String) (d : V) :
    (l ++ [(k, d)]).lookup t
      = match l.lookup t with
        | some v => some v
        | none => if t == k then some d else none := by
  induction l with
  | nil => simp [List.lookup]; split <;> simp_all
  | cons p ps ih =>
    obtain ⟨k1, v1⟩ := p
    simp only [List.cons_append, List.lookup]
    split <;> simp_all

/-- Looking a register up yields its field, and the entry `operator[]` may have
inserted leaves the field of every token unchanged. -/
theorem index_regField (r : List (String × String)) (k : String)
    (h : ∀ t, (r.lookup t).getD "" = regField t) :
    (index "" r k).1 = regField k ∧
    ∀ t, ((index "" r k).2.lookup t).getD "" = regField t := by
  cases hk : r.lookup k with
  | some v =>
    rw [index_found _ _ _ _ hk]
    refine ⟨?_, h⟩
    have := h k
    rw [hk] at this
    exact this
  | none =>
    rw [index_absent _ _ _ hk]
    have hk2 := h k
    rw [hk] at hk2
    refine ⟨hk2, ?_⟩
    intro t
    have ht := h t
    simp only [lookup_append_singleton]
    cases hl : r.lookup t with
    | some v => rw [hl] at ht; exact ht
    | none =>
      rw [hl] at ht
      simp only
      split <;> exact ht

theorem fresh_regField : ∀ t, (fresh.registerMap.lookup t).getD "" = regField t :=
  fun _ => rfl

theorem encodeRType_regField (a : RiscVAssembler) (info : InstructionInfo)
    (rd rs1 rs2 : String) (h : ∀ t, (a.registerMap.lookup t).getD "" = regField t) :
    (encodeRType a info rd rs1 rs2).1
      = info.funct7 ++ regField rs2 ++ regField rs1 ++ info.funct3 ++ regField rd
          ++ info.opcode := by
  obtain ⟨e2, i2⟩ := index_regField a.registerMap rs2 h
  obtain ⟨e1, i1⟩ := index_regField _ rs1 i2
  obtain ⟨e0, -⟩ := index_regField _ rd i1
  simp only [encodeRType, e2, e1, e0]

theorem encodeIType_regField (a : RiscVAssembler) (info : InstructionInfo)
    (rd rs1 : String) (imm : Int) (h : ∀ t, (a.registerMap.lookup t).getD "" = regField t) :
    (encodeIType a info rd rs1 imm).1
      = bitset 12 imm ++ regField rs1 ++ info.funct3 ++ regField rd ++ info.opcode := by
  obtain ⟨e1, i1⟩ := index_regField a.registerMap rs1 h
  obtain ⟨e0, -⟩ := index_regField _ rd i1
  simp only [encodeIType, e1, e0]

theorem encodeBType_regField (a : RiscVAssembler) (info : InstructionInfo)
    (rs1 rs2 : String) (offset : Int)
    (h : ∀ t, (a.registerMap.lookup t).getD "" = regField t) :
    (encodeBType a info rs1 rs2 offset).1
      = substr (bitset 13 offset) 0 1 ++ substr (bitset 13 offset) 1 6 ++ regField rs2
          ++ regField rs1 ++ info.funct3 ++ substr (bitset 13 offset) 7 4
          ++ substr (bitset 13 offset) 11 1 ++ info.opcode := by
  obtain ⟨e2, i2⟩ := index_regField a.registerMap rs2 h
  obtain ⟨e1, -⟩ := index_regField _ rs1 i2
  simp only [encodeBType, e2, e1]

theorem encodeJType_regField (a : RiscVAssembler) (info : InstructionInfo)
    (rd : String) (offset : Int) (h : ∀ t, (a.registerMap.lookup t).getD "" = regField t) :
    (encodeJType a info rd offset).1
      = substr (bitset 21 offset) 0 1 ++ substr (bitset 21 offset) 12 8
          ++ substr (bitset 21 offset) 11 1 ++ substr (bitset 21 offset) 1 10
          ++ regField rd ++ info.opcode := by
  obtain ⟨e0, -⟩ := index_regField a.registerMap rd h
  simp only [encodeJType, e0]

theorem encodeSType_regField (a : RiscVAssembler) (info : InstructionInfo)
    (rs1 rs2 : String) (offset : Int)
    (h : ∀ t, (a.registerMap.lookup t).getD "" = regField t) :
    (encodeSType a info rs1 rs2 offset).1
      = substr (bitset 12 offset) 0 7 ++ regField rs2 ++ regField rs1 ++ info.funct3
          ++ substr (bitset 12 offset) 7 5 ++ info.opcode := by
  obtain ⟨e2, i2⟩ := index_regField a.registerMap rs2 h
  obtain ⟨e1, -⟩ := index_regField _ rs1 i2
  simp only [encodeSType, e2, e1]

theorem encodeUType_regField (a : RiscVAssembler) (info : InstructionInfo)
    (rd : String) (imm : Int) (h : ∀ t, (a.registerMap.lookup t).getD "" = regField t) :
    (encodeUType a info rd imm).1 = bitset 20 imm ++ regField rd ++ info.opcode := by
  obtain ⟨e0, -⟩ := index_regField a.registerMap rd h
  simp only [encodeUType, e0]

theorem register_table : ∀ p ∈ registerMap,
    IsBitString p.2 ∧ ∃ n, n < 32 ∧ p.1 = regName n := by
  unfold IsBitString
  decide

theorem regField_bits (t : String) : IsBitString (regField t) := by
  unfold regField
  cases h : registerMap.lookup t with
  | none => intro c hc; simp at hc
  | some v => exact (register_table _ (lookup_mem _ _ _ h)).1

theorem bitset_bits (n : Nat) (v : Int) : IsBitString (bitset n v) := by
  rw [bitset_eq_binary]
  exact binary_bits n _

theorem substr_bits (s : String) (p n : Nat) (h : IsBitString s) :
    IsBitString (substr s p n) := by
  intro c hc
  exact h c (List.mem_of_mem_drop (List.mem_of_mem_take hc))

/-- Every line with a supported mnemonic yields a string of bits, whatever its
operands. -/
theorem supported_bits (line : String) (u : Int)
    (hm : firstToken line ∈ supportedMnemonics) :
    IsBitString (parseAndEncode fresh u line).1 := by
  obtain ⟨info, hinfo⟩ := Option.isSome_iff_exists.mp (supported_lookup _ hm)
  have hmem := lookup_mem _ _ _ hinfo
  obtain ⟨ht, -, -, -⟩ := table_types (firstToken line, info) hmem
  obtain ⟨hbo, hb3, hb7⟩ := table_bits (firstToken line, info) hmem
  have hinv : ∀ t, ((⟨registerMap, instructionMap⟩ : RiscVAssembler).registerMap.lookup
      t).getD "" = regField t := fun _ => rfl
  simp only [parseAndEncode, extractString_firstToken, fresh, index_found _ _ _ _ hinfo]
  split_ifs with h1 h2 h3 h4 h5 h6
  · rw [encodeRType_regField _ _ _ _ _ hinv]
    exact isBitString_append _ _ (isBitString_append _ _ (isBitString_append _ _
      (isBitString_append _ _ (isBitString_append _ _ (hb7) (regField_bits _)) (regField_bits
      _)) (hb3)) (regField_bits _)) (hbo)
  · rw [encodeIType_regField _ _ _ _ _ hinv]
    exact isBitString_append _ _ (isBitString_append _ _ (isBitString_append _ _
      (isBitString_append _ _ (bitset_bits _ _) (regField_bits _)) (hb3)) (regField_bits _))
      (hbo)
  · rw [encodeBType_regField _ _ _ _ _ hinv]
    exact isBitString_append _ _ (isBitString_append _ _ (isBitString_append _ _
      (isBitString_append _ _ (isBitString_append _ _ (isBitString_append _ _
      (isBitString_append _ _ (substr_bits _ _ _ (bitset_bits _ _)) (substr_bits _ _ _
      (bitset_bits _ _))) (regField_bits _)) (regField_bits _)) (hb3)) (substr_bits _ _ _
      (bitset_bits _ _))) (substr_bits _ _ _ (bitset_bits _ _))) (hbo)
  · rw [encodeJType_regField _ _ _ _ hinv]
    exact isBitString_append _ _ (isBitString_append _ _ (isBitString_append _ _
      (isBitString_append _ _ (isBitString_append _ _ (substr_bits _ _ _ (bitset_bits _ _))
      (substr_bits _ _ _ (bitset_bits _ _))) (substr_bits _ _ _ (bitset_bits _ _)))
      (substr_bits _ _ _ (bitset_bits _ _))) (regField_bits _)) (hbo)
  · rw [encodeSType_regField _ _ _ _ _ hinv]
    exact isBitString_append _ _ (isBitString_append _ _ (isBitString_append _ _
      (isBitString_append _ _ (isBitString_append _ _ (substr_bits _ _ _ (bitset_bits _ _))
      (regField_bits _)) (regField_bits _)) (hb3)) (substr_bits _ _ _ (bitset_bits _ _))) (hbo)
  · rw [encodeUType_regField _ _ _ _ hinv]
    exact isBitString_append _ _ (isBitString_append _ _ (bitset_bits _ _) (regField_bits _))
      (hbo)
  · simp only at ht
    tauto

theorem token_comma (t : List Char) (h : IsToken t) : IsToken (t ++ [',']) := by
  refine ⟨by simp, ?_⟩
  intro c hc
  rcases List.mem_append.mp hc with hc | hc
  · exact h.2 c hc
  · simp only [List.mem_singleton] at hc
    subst hc
    decide

/-! ## Parsing branch, jump, store and upper-immediate lines -/

theorem parse_BType (a : RiscVAssembler) (u : Int) (m : String) (info : InstructionInfo)
    (t1 t2 : List Char) (imm : Int) (hm : IsToken m.data) (h1 : IsToken t1)
    (h2 : IsToken t2) (hl : a.instructionMap.lookup m = some info)
    (hB : info.type = 'B') :
    parseAndEncode a u ⟨m.data ++ ' ' :: (t1 ++ ' ' :: (t2 ++ ' ' :: (toString imm).data))⟩
      = encodeBType a info (substr ⟨t1⟩ 0 (sizeMinusOne ⟨t1⟩))
          (substr ⟨t2⟩ 0 (sizeMinusOne ⟨t2⟩)) (saturate imm) := by
  simp only [parseAndEncode, extractString_first _ _ _ hm, index_found _ _ _ _ hl, hB,
    if_true, extractString_mid _ _ _ h1, extractString_mid _ _ _ h2,
    extractInt_literal]
  rw [if_neg (by decide), if_neg (by decide)]

theorem parse_JType (a : RiscVAssembler) (u : Int) (m : String) (info : InstructionInfo)
    (t1 : List Char) (imm : Int) (hm : IsToken m.data) (h1 : IsToken t1)
    (hl : a.instructionMap.lookup m = some info) (hJ : info.type = 'J') :
    parseAndEncode a u ⟨m.data ++ ' ' :: (t1 ++ ' ' :: (toString imm).data)⟩
      = encodeJType a info (substr ⟨t1⟩ 0 (sizeMinusOne ⟨t1⟩)) (saturate imm) := by
  simp only [parseAndEncode, extractString_first _ _ _ hm, index_found _ _ _ _ hl, hJ,
    if_true, extractString_mid _ _ _ h1, extractInt_literal]
  rw [if_neg (by decide), if_neg (by decide), if_neg (by decide)]

theorem parse_UType (a : RiscVAssembler) (u : Int) (m : String) (info : InstructionInfo)
    (t1 : List Char) (imm : Int) (hm : IsToken m.data) (h1 : IsToken t1)
    (hl : a.instructionMap.lookup m = some info) (hU : info.type = 'U') :
    parseAndEncode a u ⟨m.data ++ ' ' :: (t1 ++ ' ' :: (toString imm).data)⟩
      = encodeUType a info ⟨t1⟩ (saturate imm) := by
  simp only [parseAndEncode, extractString_first _ _ _ hm, index_found _ _ _ _ hl, hU,
    if_true, extractString_mid _ _ _ h1, extractInt_literal]
  rw [if_neg (by decide), if_neg (by decide), if_neg (by decide), if_neg (by decide),
    if_neg (by decide)]

/-- A natural literal followed directly by more text: the digits are consumed
and the text stays in the stream. -/
theorem extractInt_natural_then (n : Nat) (rest : List Char) (old : Int)
    (hn : n ≤ 2147483647) (hr : IsToken rest) (hd : ∀ c ∈ rest.head?, isdigit c = false) :
    extractInt ⟨' ' :: ((toString n).data ++ rest), false, false⟩ old
      = (⟨rest, false, false⟩, (n : Int)) := by
  obtain ⟨hne, hall, hval⟩ := repr_digits n
  have ht : IsToken (toString n).data := ⟨hne, fun c hc => (hall c hc).2⟩
  have hs := sentry_space_token (toString n).data rest ht
  have htake := takeWhile_run isdigit _ rest (fun c hc => (hall c hc).1) hd
  have hdrop := dropWhile_run isdigit _ rest (fun c hc => (hall c hc).1) hd
  obtain ⟨c, cs, hcs⟩ := List.exists_cons_of_ne_nil hne
  have hc : isdigit c = true := (hall c (by rw [hcs]; simp)).1
  have hm : c ≠ '-' := by rintro rfl; exact absurd hc (by decide)
  have hp : c ≠ '+' := by rintro rfl; exact absurd hc (by decide)
  have hhead : ((toString n).data ++ rest).head? = some c := by rw [hcs]; rfl
  obtain ⟨r, rs, hrs⟩ := List.exists_cons_of_ne_nil hr.1
  have hemp : ((toString n).data).isEmpty = false := by rw [hcs]; rfl
  simp only [extractInt, hs, if_true, hhead, Option.some.injEq, hm, hp, or_self, if_false,
    htake, hdrop, hemp, Bool.false_eq_true, hval]
  rw [if_neg (by omega), if_neg (by omega), hrs]
  rfl

/-- A token that ends the line, read with no blank in front of it. -/
theorem extractString_end (t : List Char) (old : String) (ht : IsToken t) :
    extractString ⟨t, false, false⟩ old = (⟨[], true, false⟩, ⟨t⟩) := by
  have h := extract_after t [] ht (by simp)
  have hs := sentry_token t [] ht
  simp only [List.append_nil] at h hs
  simp only [extractString, hs, if_true, h.1, h.2]
  rfl

theorem parse_SType (a : RiscVAssembler) (u : Int) (m : String) (info : InstructionInfo)
    (t1 t3 : List Char) (n : Nat) (hm : IsToken m.data) (h1 : IsToken t1)
    (h3 : IsToken t3) (hd : ∀ c ∈ t3.head?, isdigit c = false) (hn : n ≤ 2147483647)
    (hl : a.instructionMap.lookup m = some info) (hS : info.type = 'S') :
    parseAndEncode a u ⟨m.data ++ ' ' :: (t1 ++ ' ' :: ((toString n).data ++ t3))⟩
      = encodeSType a info (substr ⟨t3⟩ 0 (sizeMinusOne ⟨t3⟩))
          (substr ⟨t1⟩ 0 (sizeMinusOne ⟨t1⟩)) (n : Int) := by
  simp only [parseAndEncode, extractString_first _ _ _ hm, index_found _ _ _ _ hl, hS,
    if_true, extractString_mid _ _ _ h1, extractInt_natural_then n t3 _ hn h3 hd,
    extractString_end _ _ h3]
  rw [if_neg (by decide), if_neg (by decide), if_neg (by decide), if_neg (by decide)]

/-! ## Register tokens that do not resolve: the claim -/

/-- C6, as stated, fails: `add x1, x2, x32` names the unknown register `x32`,
yet the call returns a string of bits (27 of them) instead of failing. -/
theorem unknown_register_counterexample :
    registerMap.lookup "x32" = none ∧
    (parseAndEncode fresh 0 "add x1, x2, x32").1
      = "0000000" ++ "" ++ "00010" ++ "000" ++ "00001" ++ "0110011" ∧
    IsBitString (parseAndEncode fresh 0 "add x1, x2, x32").1 := by
  unfold IsBitString
  decide

/-- C6, amended. No line with a supported mnemonic fails on a register: the
result is always a string of bits.  A register token contributes the field
`regField`, which is `bin5 N` for `xN` with `N < 32` and the empty string for
every other token; for an R-type line `m rd, rs1, rs2` with arbitrary operand
tokens the result is
`funct7 ++ regField rs2 ++ regField rs1 ++ funct3 ++ regField rd ++ opcode`. -/
theorem unknown_register_field (m : String) (info : InstructionInfo) (rd rs1 rs2 : String)
    (u : Int) (hm : m ∈ rTypeMnemonics) (hinfo : instructionMap.lookup m = some info)
    (hrd : IsToken rd.data) (hrs1 : IsToken rs1.data) (hrs2 : IsToken rs2.data)
    (hrdl : rd.length + 1 < 2 ^ 64) (hrs1l : rs1.length + 1 < 2 ^ 64) :
    (parseAndEncode fresh u (m ++ " " ++ rd ++ ", " ++ rs1 ++ ", " ++ rs2)).1
      = info.funct7 ++ regField rs2 ++ regField rs1 ++ info.funct3 ++ regField rd
          ++ info.opcode
    ∧ (∀ n, n < 32 → regField (regName n) = bin5 n)
    ∧ (∀ t, (∀ n, n < 32 → t ≠ regName n) → regField t = "")
    ∧ (∀ line, firstToken line ∈ supportedMnemonics →
        IsBitString (parseAndEncode fresh u line).1) := by
  obtain ⟨hmt, hR, -⟩ := table_RType (m, info) (lookup_mem _ _ _ hinfo) hm
  refine ⟨?_, ?_, ?_, fun line hl => supported_bits line u hl⟩
  · rw [line3_data, parse_RType fresh u m info _ _ _ hmt (token_comma _ hrd)
      (token_comma _ hrs1) hrs2 hinfo hR, substr_init _ _ hrdl, substr_init _ _ hrs1l]
    exact encodeRType_regField _ _ _ _ _ fresh_regField
  · intro n hn
    simp only [regField, (regName_token n hn).2.2.2, Option.getD_some]
  · intro t ht
    unfold regField
    cases h : registerMap.lookup t with
    | none => rfl
    | some v =>
      obtain ⟨n, hn, hname⟩ := (register_table _ (lookup_mem _ _ _ h)).2
      exact absurd hname (ht n hn)

/-- C6, amended, instance: in `add x1, x2, x32` the field of `x32` is empty. -/
theorem unknown_register_field_witness :
    (parseAndEncode fresh 0 "add x1, x2, x32").1
      = "0000000" ++ "" ++ "00010" ++ "000" ++ "00001" ++ "0110011" :=
  (unknown_register_field "add" ⟨"0110011", "000", "0000000", 'R'⟩ "x1" "x2" "x32" 0
    (by decide) (by decide) ⟨by decide, by decide⟩ ⟨by decide, by decide⟩
    ⟨by decide, by decide⟩ (by decide) (by decide)).1

/-! ## Stores, branches, jumps and upper immediates on their documented syntax -/

/-- C7. On the documented store syntax `sw x3, 4(x1)` only the closing
parenthesis is stripped from the base register, so the token looked up is `(x1`,
which is not a register: the `rs1` field comes out empty, the result has 27
characters and differs from the S-type word the claim gives. -/
theorem stype_store_divergence (u : Int) :
    substr "(x1)" 0 (sizeMinusOne "(x1)") = "(x1" ∧
    registerMap.lookup "(x1" = none ∧
    (parseAndEncode fresh u "sw x3, 4(x1)").1
      = "0000000" ++ "00011" ++ "" ++ "010" ++ "00100" ++ "0100011" ∧
    (parseAndEncode fresh u "sw x3, 4(x1)").1.length = 27 ∧
    (parseAndEncode fresh u "sw x3, 4(x1)").1
      ≠ "0000000" ++ "00011" ++ "00001" ++ "010" ++ "00100" ++ "0100011" := by
  have hline : ("sw x3, 4(x1)" : String)
      = ⟨"sw".data ++ ' ' :: ("x3,".data ++ ' ' :: ((toString (4 : Nat)).data ++ "(x1)".data))⟩ := by
    decide
  have h := parse_SType fresh u "sw" ⟨"0100011", "010", "", 'S'⟩ "x3,".data "(x1)".data 4
    ⟨by decide, by decide⟩ ⟨by decide, by decide⟩ ⟨by decide, by decide⟩ (by decide)
    (by decide) (by decide) rfl
  rw [← hline] at h
  rw [h]
  decide

/-- C8. For `beq x1, x2, 8` the four characters placed before `imm[11]` are bits
5..2 of the offset (`0010`), not bits 4..1 (`0100`): the result is the word of a
branch by 4 and differs from the B-type word the claim gives. -/
theorem btype_branch_divergence (u : Int) :
    (parseAndEncode fresh u "beq x1, x2, 8").1
      = "0" ++ "000000" ++ "00010" ++ "00001" ++ "000" ++ "0010" ++ "0" ++ "1100011" ∧
    (parseAndEncode fresh u "beq x1, x2, 8").1
      ≠ "0" ++ "000000" ++ "00010" ++ "00001" ++ "000" ++ "0100" ++ "0" ++ "1100011" := by
  have hline : ("beq x1, x2, 8" : String)
      = ⟨"beq".data ++ ' ' :: ("x1,".data ++ ' ' :: ("x2,".data ++ ' ' ::
          (toString (8 : Int)).data))⟩ := by
    decide
  have h := parse_BType fresh u "beq" ⟨"1100011", "000", "", 'B'⟩ "x1,".data "x2,".data 8
    ⟨by decide, by decide⟩ ⟨by decide, by decide⟩ ⟨by decide, by decide⟩ (by decide) rfl
  rw [← hline] at h
  rw [h]
  decide

/-- C9. For `jal x1, 16` the set bit `imm[4]` lands in the 8-character field that
should hold `imm[19:12]` and the `imm[10:1]` field is all zeros: the result
differs from the J-type word the claim gives. -/
theorem jtype_jump_divergence (u : Int) :
    (parseAndEncode fresh u "jal x1, 16").1
      = "0" ++ "00001000" ++ "0" ++ "0000000000" ++ "00001" ++ "1101111" ∧
    (parseAndEncode fresh u "jal x1, 16").1
      ≠ "0" ++ "00000000" ++ "0" ++ "0000001000" ++ "00001" ++ "1101111" := by
  have hline : ("jal x1, 16" : String)
      = ⟨"jal".data ++ ' ' :: ("x1,".data ++ ' ' :: (toString (16 : Int)).data)⟩ := by
    decide
  have h := parse_JType fresh u "jal" ⟨"1101111", "", "", 'J'⟩ "x1,".data 16
    ⟨by decide, by decide⟩ ⟨by decide, by decide⟩ (by decide) rfl
  rw [← hline] at h
  rw [h]
  decide

/-- C10. On the canonical syntax `lui x1, 5` the comma is not stripped from the
register token, so `x1,` is looked up, which is not a register: the `rd` field
comes out empty, the result has 27 characters and differs from the U-type word
the claim gives. -/
theorem utype_upper_divergence (u : Int) :
    registerMap.lookup "x1," = none ∧
    (parseAndEncode fresh u "lui x1, 5").1
      = "00000000000000000101" ++ "" ++ "0110111" ∧
    (parseAndEncode fresh u "lui x1, 5").1.length = 27 ∧
    (parseAndEncode fresh u "lui x1, 5").1
      ≠ "00000000000000000101" ++ "00001" ++ "0110111" := by
  have hline : ("lui x1, 5" : String)
      = ⟨"lui".data ++ ' ' :: ("x1,".data ++ ' ' :: (toString (5 : Int)).data)⟩ := by
    decide
  have h := parse_UType fresh u "lui" ⟨"0110111", "", "", 'U'⟩ "x1,".data 5
    ⟨by decide, by decide⟩ ⟨by decide, by decide⟩ (by decide) rfl
  rw [← hline] at h
  rw [h]
  decide

/-! ## The immediate field of I-type lines -/

theorem bitsValue_snoc (l : List Char) (c : Char) :
    bitsValue (l ++ [c]) = 2 * bitsValue l + (if c = '1' then 1 else 0) := by
  simp [bitsValue, List.foldl_append]

theorem bitsValue_binary (n u : Nat) : bitsValue (binary n u) = u % 2 ^ n := by
  induction n generalizing u with
  | zero => simp [binary, bitsValue, Nat.mod_one]
  | succ n ih =>
    rw [binary, bitsValue_snoc, ih, pow_succ', Nat.mod_mul]
    have h2 : u % 2 = 0 ∨ u % 2 = 1 := by omega
    rcases h2 with h | h
    · simp [h]
    · simp [h]
      omega

/-- The first 12 characters of an I-type result are the `bitset<12>` rendering. -/
theorem itype_field (m : String) (info : InstructionInfo) (rd rs1 : Nat) (imm u : Int)
    (hm : m ∈ iTypeMnemonics) (hinfo : instructionMap.lookup m = some info)
    (hrd : rd < 32) (hrs1 : rs1 < 32) :
    (parseAndEncode fresh u
        (m ++ " " ++ regName rd ++ ", " ++ regName rs1 ++ ", " ++ toString imm)).1.data.take 12
      = binary 12 (saturate imm % 4096).toNat := by
  rw [itype_layout m info rd rs1 imm u hm hinfo hrd hrs1, bitset12_mod]
  simp only [String.data_append, List.append_assoc]
  rw [List.take_left' (binary_length 12 _)]

/-- C12. Sign-extension round trip: for every I-type mnemonic, registers in
`x0..x31` and every `imm` with `-2048 ≤ imm ≤ 2047`, reading the first 12
characters of the result as a 12-bit two's-complement number gives back `imm`;
for `imm = -1` those characters are twelve ones. -/
theorem itype_roundtrip (m : String) (info : InstructionInfo) (rd rs1 : Nat) (imm u : Int)
    (hm : m ∈ iTypeMnemonics) (hinfo : instructionMap.lookup m = some info)
    (hrd : rd < 32) (hrs1 : rs1 < 32) (hlo : -2048 ≤ imm) (hhi : imm ≤ 2047) :
    decodeTwos 12 ((parseAndEncode fresh u
        (m ++ " " ++ regName rd ++ ", " ++ regName rs1 ++ ", " ++ toString imm)).1.data.take 12)
      = imm
    ∧ (imm = -1 → (parseAndEncode fresh u
        (m ++ " " ++ regName rd ++ ", " ++ regName rs1 ++ ", " ++ toString imm)).1.data.take 12
      = "111111111111".data) := by
  have hf := itype_field m info rd rs1 imm u hm hinfo hrd hrs1
  rw [saturate_id imm (by omega) (by omega)] at hf
  rw [hf]
  constructor
  · simp only [decodeTwos, bitsValue_binary]
    split <;> omega
  · rintro rfl
    decide

/-- C12, instances: `2047`, `-2048` and `-1` round-trip through `addi`, and `-1`
is twelve ones. -/
theorem itype_roundtrip_witness :
    decodeTwos 12 ((parseAndEncode fresh 0 "addi x1, x2, 2047").1.data.take 12) = 2047 ∧
    decodeTwos 12 ((parseAndEncode fresh 0 "addi x1, x2, -2048").1.data.take 12) = -2048 ∧
    (parseAndEncode fresh 0 "addi x1, x2, -1").1.data.take 12 = "111111111111".data := by
  have e2 : ("addi x1, x2, -2048" : String)
      = "addi" ++ " " ++ regName 1 ++ ", " ++ regName 2 ++ ", " ++ toString (-2048 : Int) := by
    decide
  have e3 : ("addi x1, x2, -1" : String)
      = "addi" ++ " " ++ regName 1 ++ ", " ++ regName 2 ++ ", " ++ toString (-1 : Int) := by
    decide
  rw [e2, e3]
  exact ⟨(itype_roundtrip "addi" ⟨"0010011", "000", "", 'I'⟩ 1 2 2047 0
      (by decide) (by decide) (by decide) (by decide) (by decide) (by decide)).1,
    (itype_roundtrip "addi" ⟨"0010011", "000", "", 'I'⟩ 1 2 (-2048) 0
      (by decide) (by decide) (by decide) (by decide) (by decide) (by decide)).1,
    (itype_roundtrip "addi" ⟨"0010011", "000", "", 'I'⟩ 1 2 (-1) 0
      (by decide) (by decide) (by decide) (by decide) (by decide) (by decide)).2 rfl⟩

/-- C19. The I-type immediate field is the immediate reduced modulo 4096, with
no range check: for every I-type mnemonic, registers in `x0..x31` and 32-bit
integers `a`, `b` congruent modulo 4096, the lines `m rd, rs1, a` and
`m rd, rs1, b` get the same result. -/
theorem itype_mod_4096 (m : String) (info : InstructionInfo) (rd rs1 : Nat) (a b u : Int)
    (hm : m ∈ iTypeMnemonics) (hinfo : instructionMap.lookup m = some info)
    (hrd : rd < 32) (hrs1 : rs1 < 32)
    (ha : -2147483648 ≤ a ∧ a ≤ 2147483647) (hb : -2147483648 ≤ b ∧ b ≤ 2147483647)
    (hab : a % 4096 = b % 4096) :
    (parseAndEncode fresh u
        (m ++ " " ++ regName rd ++ ", " ++ regName rs1 ++ ", " ++ toString a)).1
      = (parseAndEncode fresh u
        (m ++ " " ++ regName rd ++ ", " ++ regName rs1 ++ ", " ++ toString b)).1
    ∧ (parseAndEncode fresh u
        (m ++ " " ++ regName rd ++ ", " ++ regName rs1 ++ ", " ++ toString a)).1
      = ⟨binary 12 (a % 4096).toNat⟩ ++ bin5 rs1 ++ info.funct3 ++ bin5 rd ++ info.opcode := by
  rw [itype_layout m info rd rs1 a u hm hinfo hrd hrs1,
    itype_layout m info rd rs1 b u hm hinfo hrd hrs1,
    saturate_id a ha.1 ha.2, saturate_id b hb.1 hb.2, bitset12_mod, bitset12_mod, hab]
  exact ⟨rfl, rfl⟩

/-- C19, instance: `addi x1, x2, 5000` and `addi x1, x2, 904` get the same result. -/
theorem itype_mod_4096_witness :
    (parseAndEncode fresh 0 "addi x1, x2, 5000").1
      = (parseAndEncode fresh 0 "addi x1, x2, 904").1 :=
  (itype_mod_4096 "addi" ⟨"0010011", "000", "", 'I'⟩ 1 2 5000 904 0
    (by decide) (by decide) (by decide) (by decide) (by decide) (by decide) (by decide)).1

/-! ## Shift-immediate lines -/

theorem binary12_small (s : Nat) (hs : s < 32) :
    binary 12 s = "0000000".data ++ binary 5 s := by
  have h5 : s / 2 / 2 / 2 / 2 / 2 = 0 := by omega
  simp only [binary, h5, List.nil_append, List.append_assoc, List.singleton_append]
  rfl

/-- For each shift-immediate mnemonic and each shift amount below 32, the
immediate field is seven zeros followed by the 5-bit amount: the `funct7` of the
table entry is not used. -/
theorem shift_field (m : String) (info : InstructionInfo) (rd rs1 s : Nat) (u : Int)
    (hm : m ∈ shiftMnemonics) (hinfo : instructionMap.lookup m = some info)
    (hrd : rd < 32) (hrs1 : rs1 < 32) (hs : s < 32) :
    (parseAndEncode fresh u
        (m ++ " " ++ regName rd ++ ", " ++ regName rs1 ++ ", "
          ++ toString (s : Int))).1.data.take 12
      = "0000000".data ++ binary 5 s := by
  have hmI : m ∈ iTypeMnemonics :=
    (by decide : ∀ k ∈ shiftMnemonics, k ∈ iTypeMnemonics) m hm
  rw [itype_field m info rd rs1 s u hmI hinfo hrd hrs1, saturate_id _ (by omega) (by omega)]
  have h : ((s : Int) % 4096).toNat = s := by omega
  rw [h, binary12_small s hs]

/-- C11. For `srai x1, x2, 3` the table records `funct7 = 0100000`, but the
first 12 characters of the result are `0000000` followed by `00011`, not
`0100000` followed by `00011`; the result is the very word of `srli x1, x2, 3`. -/
theorem shift_immediate_divergence (u : Int) :
    (instructionMap.lookup "srai").map (fun i => i.funct7) = some "0100000" ∧
    (parseAndEncode fresh u "srai x1, x2, 3").1.data.take 12
      = ("0000000" ++ "00011").data ∧
    (parseAndEncode fresh u "srai x1, x2, 3").1.data.take 12
      ≠ ("0100000" ++ "00011").data ∧
    (parseAndEncode fresh u "srai x1, x2, 3").1
      = (parseAndEncode fresh u "srli x1, x2, 3").1 := by
  have e1 : ("srai x1, x2, 3" : String)
      = "srai" ++ " " ++ regName 1 ++ ", " ++ regName 2 ++ ", " ++ toString (3 : Int) := by
    decide
  have e2 : ("srli x1, x2, 3" : String)
      = "srli" ++ " " ++ regName 1 ++ ", " ++ regName 2 ++ ", " ++ toString (3 : Int) := by
    decide
  have h1 := itype_layout "srai" ⟨"0010011", "101", "0100000", 'I'⟩ 1 2 3 u
    (by decide) (by decide) (by decide) (by decide)
  have h2 := itype_layout "srli" ⟨"0010011", "101", "0000000", 'I'⟩ 1 2 3 u
    (by decide) (by decide) (by decide) (by decide)
  rw [← e1] at h1
  rw [← e2] at h2
  rw [h1, h2]
  decide

/-! ## Decoding an R-type word -/

theorem rtype_layout (m : String) (info : InstructionInfo) (rd rs1 rs2 : Nat) (u : Int)
    (hm : m ∈ rTypeMnemonics) (hinfo : instructionMap.lookup m = some info)
    (hrd : rd < 32) (hrs1 : rs1 < 32) (hrs2 : rs2 < 32) :
    (parseAndEncode fresh u
        (m ++ " " ++ regName rd ++ ", " ++ regName rs1 ++ ", " ++ regName rs2)).1
      = info.funct7 ++ bin5 rs2 ++ bin5 rs1 ++ info.funct3 ++ bin5 rd ++ info.opcode := by
  obtain ⟨hmt, hR, -⟩ := table_RType (m, info) (lookup_mem _ _ _ hinfo) hm
  obtain ⟨-, hd, hdl, hdv⟩ := regName_token rd hrd
  obtain ⟨-, h1, h1l, h1v⟩ := regName_token rs1 hrs1
  obtain ⟨h2, -, -, h2v⟩ := regName_token rs2 hrs2
  rw [line3_data, parse_RType fresh u m info _ _ _ hmt hd h1 h2 hinfo hR,
    substr_init _ _ hdl, substr_init _ _ h1l]
  simp only [encodeRType, fresh, index_found _ _ _ _ h2v, index_found _ _ _ _ h1v,
    index_found _ _ _ _ hdv]

theorem table_RType_fields : ∀ p ∈ instructionMap, p.1 ∈ rTypeMnemonics →
    p.2.funct7.length = 7 ∧ p.2.funct3.length = 3 ∧
    lookupRType p.2.funct7 p.2.funct3 = [p.1] := by
  decide

theorem rtype_slices (f7 a b f3 c op : String) (h7 : f7.length = 7) (ha : a.length = 5)
    (hb : b.length = 5) (h3 : f3.length = 3) :
    substr (f7 ++ a ++ b ++ f3 ++ c ++ op) 0 7 = f7 ∧
    substr (f7 ++ a ++ b ++ f3 ++ c ++ op) 17 3 = f3 := by
  constructor
  · apply String.ext
    simp only [substr, String.data_append, List.drop_zero, List.append_assoc]
    exact List.take_left' h7
  · apply String.ext
    simp only [substr, String.data_append]
    have e : f7.data ++ a.data ++ b.data ++ f3.data ++ c.data ++ op.data
        = (f7.data ++ a.data ++ b.data) ++ (f3.data ++ (c.data ++ op.data)) := by
      simp only [List.append_assoc]
    have hl : (f7.data ++ a.data ++ b.data).length = 17 := by
      simp only [List.length_append]
      simp only [String.length] at h7 ha hb
      omega
    rw [e, List.drop_left' hl]
    exact List.take_left' h3

/-- C13. R-type round trip: for every R-type mnemonic `m` and registers in
`x0..x31`, decoding characters 0..6 and 17..19 of the result against the
instruction table yields exactly the one mnemonic `m`; the table's map from
R-type mnemonic to `(funct7, funct3)` is injective. -/
theorem rtype_roundtrip (m : String) (info : InstructionInfo) (rd rs1 rs2 : Nat) (u : Int)
    (hm : m ∈ rTypeMnemonics) (hinfo : instructionMap.lookup m = some info)
    (hrd : rd < 32) (hrs1 : rs1 < 32) (hrs2 : rs2 < 32) :
    decodeRType (parseAndEncode fresh u
        (m ++ " " ++ regName rd ++ ", " ++ regName rs1 ++ ", " ++ regName rs2)).1 = [m]
    ∧ substr (parseAndEncode fresh u
        (m ++ " " ++ regName rd ++ ", " ++ regName rs1 ++ ", " ++ regName rs2)).1 0 7
      = info.funct7
    ∧ substr (parseAndEncode fresh u
        (m ++ " " ++ regName rd ++ ", " ++ regName rs1 ++ ", " ++ regName rs2)).1 17 3
      = info.funct3
    ∧ ∀ m2 info2, m2 ∈ rTypeMnemonics → instructionMap.lookup m2 = some info2 →
        info2.funct7 = info.funct7 → info2.funct3 = info.funct3 → m2 = m := by
  obtain ⟨h7, h3, hdec⟩ := table_RType_fields (m, info) (lookup_mem _ _ _ hinfo) hm
  obtain ⟨s7, s3⟩ := rtype_slices info.funct7 (bin5 rs2) (bin5 rs1) info.funct3 (bin5 rd)
    info.opcode h7 (bin5_length _) (bin5_length _) h3
  rw [rtype_layout m info rd rs1 rs2 u hm hinfo hrd hrs1 hrs2]
  refine ⟨?_, s7, s3, ?_⟩
  · rw [decodeRType, s7, s3]
    exact hdec
  · intro m2 info2 hm2 hinfo2 e7 e3
    obtain ⟨-, -, hdec2⟩ := table_RType_fields (m2, info2) (lookup_mem _ _ _ hinfo2) hm2
    simp only at hdec hdec2
    rw [e7, e3, hdec] at hdec2
    exact (List.cons.inj hdec2).1.symm

/-- C13, instance: the word of `sra x5, x6, x7` decodes to `sra` alone. -/
theorem rtype_roundtrip_witness :
    decodeRType (parseAndEncode fresh 0 "sra x5, x6, x7").1 = ["sra"] :=
  (rtype_roundtrip "sra" ⟨"0110011", "101", "0100000", 'R'⟩ 5 6 7 0
    (by decide) (by decide) (by decide) (by decide) (by decide)).1

/-! ## Operand lists that do not follow the grammar -/

theorem line3_blank_data (m x y z : String) :
    m ++ " " ++ x ++ " " ++ y ++ " " ++ z
      = ⟨m.data ++ ' ' :: (x.data ++ ' ' :: (y.data ++ ' ' :: z.data))⟩ := by
  apply String.ext
  simp [String.data_append]

/-- What `substr(0, size() - 1)` does to any non-empty string: the last
character goes, whatever it is. -/
theorem substr_dropLast (t : List Char) (hne : t ≠ []) (h : t.length < 2 ^ 64) :
    substr ⟨t⟩ 0 (sizeMinusOne ⟨t⟩) = ⟨t.dropLast⟩ := by
  have e : t = t.dropLast ++ [t.getLast hne] := (List.dropLast_append_getLast hne).symm
  have hl : t.dropLast.length + 1 < 2 ^ 64 := by
    have := congrArg List.length e
    simp only [List.length_append, List.length_singleton] at this
    omega
  have := substr_init t.dropLast (t.getLast hne) hl
  rw [← e] at this
  exact this

/-- A line that consists of the mnemonic alone: every later extraction is
refused and leaves its string empty. -/
theorem parse_RType_alone (a : RiscVAssembler) (u : Int) (m : String)
    (info : InstructionInfo) (hm : IsToken m.data)
    (hl : a.instructionMap.lookup m = some info) (hR : info.type = 'R') :
    parseAndEncode a u m = encodeRType a info "" "" "" := by
  have h0 : extractString ⟨m.data, false, false⟩ "" = (⟨[], true, false⟩, m) :=
    extractString_end m.data "" hm
  have h1 : extractString ⟨[], true, false⟩ "" = (⟨[], true, true⟩, "") := by decide
  have h2 : extractString ⟨[], true, true⟩ "" = (⟨[], true, true⟩, "") := by decide
  have h3 : substr "" 0 (sizeMinusOne "") = "" := by decide
  simp only [parseAndEncode, h0, index_found _ _ _ _ hl, hR, if_true, h1, h2, h3]

/-- C14, as stated, fails: `add x10 x20 x3` (commas missing) is not rejected;
the last character of `x10` and of `x20` is dropped and the line is encoded as
`add x1, x2, x3`. -/
theorem malformed_operands_counterexample :
    (parseAndEncode fresh 0 "add x10 x20 x3").1 = "00000000001100010000000010110011" ∧
    (parseAndEncode fresh 0 "add x10 x20 x3").1 = (parseAndEncode fresh 0 "add x1, x2, x3").1 ∧
    IsBitString (parseAndEncode fresh 0 "add x10 x20 x3").1 := by
  unfold IsBitString
  decide

/-- C14, amended. No line with a supported mnemonic is rejected for its
operands: the result is always a string of bits, built from whatever tokens are
there.  For an R-type line `m a b c` with arbitrary operand tokens the last
character of `a` and of `b` is removed, comma or not, and the result is
`funct7 ++ regField c ++ regField (init b) ++ funct3 ++ regField (init a) ++ opcode`;
for the mnemonic alone all three register fields are empty. -/
theorem malformed_operands (m : String) (info : InstructionInfo) (a b c : String) (u : Int)
    (hm : m ∈ rTypeMnemonics) (hinfo : instructionMap.lookup m = some info)
    (ha : IsToken a.data) (hb : IsToken b.data) (hc : IsToken c.data)
    (hal : a.length < 2 ^ 64) (hbl : b.length < 2 ^ 64) :
    (parseAndEncode fresh u (m ++ " " ++ a ++ " " ++ b ++ " " ++ c)).1
      = info.funct7 ++ regField c ++ regField ⟨b.data.dropLast⟩ ++ info.funct3
          ++ regField ⟨a.data.dropLast⟩ ++ info.opcode
    ∧ (parseAndEncode fresh u m).1 = info.funct7 ++ info.funct3 ++ info.opcode
    ∧ (∀ line, firstToken line ∈ supportedMnemonics →
        IsBitString (parseAndEncode fresh u line).1) := by
  obtain ⟨hmt, hR, -⟩ := table_RType (m, info) (lookup_mem _ _ _ hinfo) hm
  refine ⟨?_, ?_, fun line hl => supported_bits line u hl⟩
  · rw [line3_blank_data, parse_RType fresh u m info _ _ _ hmt ha hb hc hinfo hR,
      substr_dropLast _ ha.1 hal, substr_dropLast _ hb.1 hbl]
    exact encodeRType_regField _ _ _ _ _ fresh_regField
  · rw [parse_RType_alone fresh u m info hmt hinfo hR,
      encodeRType_regField _ _ _ _ _ fresh_regField]
    have he : regField "" = "" := by decide
    rw [he]
    apply String.ext
    simp [String.data_append]

/-- C14, amended, instance: `add x10 x20 x3` gets the fields of `x3`, `x2`, `x1`. -/
theorem malformed_operands_witness :
    (parseAndEncode fresh 0 "add x10 x20 x3").1
      = "0000000" ++ "00011" ++ "00010" ++ "000" ++ "00001" ++ "0110011" ∧
    (parseAndEncode fresh 0 "add").1 = "0000000" ++ "000" ++ "0110011" :=
  ⟨(malformed_operands "add" ⟨"0110011", "000", "0000000", 'R'⟩ "x10" "x20" "x3" 0
    (by decide) (by decide) ⟨by decide, by decide⟩ ⟨by decide, by decide⟩
    ⟨by decide, by decide⟩ (by decide) (by decide)).1,
   (malformed_operands "add" ⟨"0110011", "000", "0000000", 'R'⟩ "x10" "x20" "x3" 0
    (by decide) (by decide) ⟨by decide, by decide⟩ ⟨by decide, by decide⟩
    ⟨by decide, by decide⟩ (by decide) (by decide)).2.1⟩

/-! ## The assembler object across calls -/

theorem index_getD {V : Type} (d : V) (m : List (String × V)) (k : String) :
    (index d m k).1 = (m.lookup k).getD d := by
  cases h : m.lookup k with
  | some v => rw [index_found _ _ _ _ h]; rfl
  | none => rw [index_absent _ _ _ h]; rfl

theorem extends_refl {V : Type} (d : V) (m : List (String × V)) : Extends d m m :=
  fun _ => Or.inl rfl

theorem extends_trans {V : Type} (d : V) (m m1 m2 : List (String × V))
    (h1 : Extends d m m1) (h2 : Extends d m1 m2) : Extends d m m2 := by
  intro t
  rcases h2 t with e2 | ⟨n2, s2⟩
  · rcases h1 t with e1 | ⟨n1, s1⟩
    · exact Or.inl (e2.trans e1)
    · exact Or.inr ⟨n1, e2.trans s1⟩
  · rcases h1 t with e1 | ⟨n1, s1⟩
    · exact Or.inr ⟨e1 ▸ n2, s2⟩
    · exact Or.inr ⟨n1, s2⟩

theorem index_extends {V : Type} (d : V) (m : List (String × V)) (k : String) :
    Extends d m (index d m k).2 := by
  cases h : m.lookup k with
  | some v => rw [index_found _ _ _ _ h]; exact extends_refl d m
  | none =>
    rw [index_absent _ _ _ h]
    intro t
    simp only [lookup_append_singleton]
    cases ht : m.lookup t with
    | some v => exact Or.inl rfl
    | none =>
      simp only
      split
      · exact Or.inr ⟨trivial, rfl⟩
      · exact Or.inl rfl

theorem extends_getD {V : Type} (d : V) (m m1 : List (String × V)) (h : Extends d m m1)
    (t : String) : (m1.lookup t).getD d = (m.lookup t).getD d := by
  rcases h t with e | ⟨n, s⟩
  · rw [e]
  · rw [n, s]; rfl

theorem encodeRType_state (a : RiscVAssembler) (info : InstructionInfo)
    (rd rs1 rs2 : String) :
    (encodeRType a info rd rs1 rs2).2.instructionMap = a.instructionMap ∧
    Extends "" a.registerMap (encodeRType a info rd rs1 rs2).2.registerMap :=
  ⟨rfl, extends_trans _ _ _ _ (extends_trans _ _ _ _ (index_extends _ _ _)
    (index_extends _ _ _)) (index_extends _ _ _)⟩

theorem encodeIType_state (a : RiscVAssembler) (info : InstructionInfo)
    (rd rs1 : String) (imm : Int) :
    (encodeIType a info rd rs1 imm).2.instructionMap = a.instructionMap ∧
    Extends "" a.registerMap (encodeIType a info rd rs1 imm).2.registerMap :=
  ⟨rfl, extends_trans _ _ _ _ (index_extends _ _ _) (index_extends _ _ _)⟩

theorem encodeBType_state (a : RiscVAssembler) (info : InstructionInfo)
    (rs1 rs2 : String) (offset : Int) :
    (encodeBType a info rs1 rs2 offset).2.instructionMap = a.instructionMap ∧
    Extends "" a.registerMap (encodeBType a info rs1 rs2 offset).2.registerMap :=
  ⟨rfl, extends_trans _ _ _ _ (index_extends _ _ _) (index_extends _ _ _)⟩

theorem encodeJType_state (a : RiscVAssembler) (info : InstructionInfo)
    (rd : String) (offset : Int) :
    (encodeJType a info rd offset).2.instructionMap = a.instructionMap ∧
    Extends "" a.registerMap (encodeJType a info rd offset).2.registerMap :=
  ⟨rfl, index_extends _ _ _⟩

theorem encodeSType_state (a : RiscVAssembler) (info : InstructionInfo)
    (rs1 rs2 : String) (offset : Int) :
    (encodeSType a info rs1 rs2 offset).2.instructionMap = a.instructionMap ∧
    Extends "" a.registerMap (encodeSType a info rs1 rs2 offset).2.registerMap :=
  ⟨rfl, extends_trans _ _ _ _ (index_extends _ _ _) (index_extends _ _ _)⟩

theorem encodeUType_state (a : RiscVAssembler) (info : InstructionInfo)
    (rd : String) (imm : Int) :
    (encodeUType a info rd imm).2.instructionMap = a.instructionMap ∧
    Extends "" a.registerMap (encodeUType a info rd imm).2.registerMap :=
  ⟨rfl, index_extends _ _ _⟩

/-- What one call does to the two tables, from any state: the instruction table
is looked up once, with the first token; the register table can only grow by
entries with the empty string. -/
theorem parse_state (a : RiscVAssembler) (u : Int) (line : String) :
    (parseAndEncode a u line).2.instructionMap
      = (index InstructionInfo.zero a.instructionMap (firstToken line)).2 ∧
    Extends "" a.registerMap (parseAndEncode a u line).2.registerMap := by
  simp only [parseAndEncode, extractString_firstToken]
  split_ifs
  · exact encodeRType_state _ _ _ _ _
  · exact encodeIType_state _ _ _ _ _
  · exact encodeBType_state _ _ _ _ _
  · exact encodeJType_state _ _ _ _
  · exact encodeSType_state _ _ _ _ _
  · exact encodeUType_state _ _ _ _
  · exact ⟨rfl, extends_refl _ _⟩

/-- The string a call returns depends on the tables only through the answers
of `operator[]`. -/
theorem parse_output (a : RiscVAssembler) (u : Int) (line : String) (h : Agrees a) :
    (parseAndEncode a u line).1 = (parseAndEncode fresh u line).1 := by
  have hi : (index InstructionInfo.zero a.instructionMap (firstToken line)).1
      = (index InstructionInfo.zero fresh.instructionMap (firstToken line)).1 := by
    rw [index_getD, index_getD]
    exact h.2 _
  have hr1 : ∀ (im : List (String × InstructionInfo)) (t : String),
      ((⟨a.registerMap, im⟩ : RiscVAssembler).registerMap.lookup t).getD "" = regField t :=
    fun _ => h.1
  have hr2 : ∀ (im : List (String × InstructionInfo)) (t : String),
      ((⟨fresh.registerMap, im⟩ : RiscVAssembler).registerMap.lookup t).getD ""
        = regField t :=
    fun _ _ => rfl
  simp only [parseAndEncode, extractString_firstToken, hi]
  split_ifs
  · rw [encodeRType_regField _ _ _ _ _ (hr1 _), encodeRType_regField _ _ _ _ _ (hr2 _)]
  · rw [encodeIType_regField _ _ _ _ _ (hr1 _), encodeIType_regField _ _ _ _ _ (hr2 _)]
  · rw [encodeBType_regField _ _ _ _ _ (hr1 _), encodeBType_regField _ _ _ _ _ (hr2 _)]
  · rw [encodeJType_regField _ _ _ _ (hr1 _), encodeJType_regField _ _ _ _ (hr2 _)]
  · rw [encodeSType_regField _ _ _ _ _ (hr1 _), encodeSType_regField _ _ _ _ _ (hr2 _)]
  · rw [encodeUType_regField _ _ _ _ (hr1 _), encodeUType_regField _ _ _ _ (hr2 _)]
  · rfl

theorem parse_agrees (a : RiscVAssembler) (u : Int) (line : String) (h : Agrees a) :
    Agrees (parseAndEncode a u line).2 := by
  obtain ⟨hi, hr⟩ := parse_state a u line
  constructor
  · intro t
    rw [extends_getD _ _ _ hr t]
    exact h.1 t
  · intro t
    rw [hi, extends_getD _ _ _ (index_extends _ _ _) t]
    exact h.2 t

theorem fresh_agrees : Agrees fresh := ⟨fun _ => rfl, fun _ => rfl⟩

theorem runLines_agrees (history : List (Int × String)) :
    ∀ a, Agrees a → Agrees (runLines a history) := by
  induction history with
  | nil => intro a h; exact h
  | cons p ps ih =>
    intro a h
    obtain ⟨u, line⟩ := p
    exact ih _ (parse_agrees a u line h)

/-! ## What a call does to the tables -/

/-- C16, as stated, fails: the call on `foo x1, x2, x3` adds the key `foo` to the
instruction table, and the call on `add x1, x2, x32` adds the key `x32` to the
register table. -/
theorem readonly_tables_counterexample :
    fresh.instructionMap.lookup "foo" = none ∧
    (parseAndEncode fresh 0 "foo x1, x2, x3").2.instructionMap.lookup "foo"
      = some InstructionInfo.zero ∧
    (parseAndEncode fresh 0 "foo x1, x2, x3").2.instructionMap ≠ fresh.instructionMap ∧
    fresh.registerMap.lookup "x32" = none ∧
    (parseAndEncode fresh 0 "add x1, x2, x32").2.registerMap.lookup "x32" = some "" ∧
    (parseAndEncode fresh 0 "add x1, x2, x32").2.registerMap ≠ fresh.registerMap := by
  decide

/-! ## The two tables of a fresh assembler -/

/-- C17. The instruction table of a fresh assembler has a descriptor for a
mnemonic exactly when it is one of the 37 listed ones, and the format tag is `R`,
`I`, `B`, `J`, `S` or `U` as the list says. -/
theorem instruction_table_contents :
    (∀ k, (fresh.instructionMap.lookup k).isSome ↔ k ∈ supportedMnemonics) ∧
    supportedMnemonics.length = 37 ∧ supportedMnemonics.Nodup ∧
    supportedMnemonics = rTypeMnemonics ++ iTypeMnemonics ++ bTypeMnemonics
      ++ jTypeMnemonics ++ sTypeMnemonics ++ uTypeMnemonics ∧
    fresh.instructionMap.map Prod.fst = supportedMnemonics ∧
    (∀ k ∈ rTypeMnemonics, formatOf k = some 'R') ∧
    (∀ k ∈ iTypeMnemonics, formatOf k = some 'I') ∧
    (∀ k ∈ bTypeMnemonics, formatOf k = some 'B') ∧
    (∀ k ∈ jTypeMnemonics, formatOf k = some 'J') ∧
    (∀ k ∈ sTypeMnemonics, formatOf k = some 'S') ∧
    (∀ k ∈ uTypeMnemonics, formatOf k = some 'U') := by
  refine ⟨?_, by decide, by decide, by decide, by decide, by decide, by decide, by decide,
    by decide, by decide, by decide⟩
  intro k
  constructor
  · intro h
    obtain ⟨v, hv⟩ := Option.isSome_iff_exists.mp h
    exact (table_types (k, v) (lookup_mem _ _ _ hv)).2.2.2
  · exact supported_lookup k

theorem five_bits_hit : ∀ a ∈ ['0', '1'], ∀ b ∈ ['0', '1'], ∀ c ∈ ['0', '1'],
    ∀ d ∈ ['0', '1'], ∀ e ∈ ['0', '1'], ∃ n, n < 32 ∧ bin5 n = ⟨[a, b, c, d, e]⟩ := by
  decide

/-- C18. The register table of a fresh assembler has exactly the 32 keys
`x0..x31`, maps `xN` to the 5-character binary of `N`, and is a bijection between
those names and the 32 five-bit strings. -/
theorem register_table_bijection :
    fresh.registerMap = (List.range 32).map (fun n => (regName n, bin5 n)) ∧
    (∀ k, (fresh.registerMap.lookup k).isSome ↔ ∃ n, n < 32 ∧ k = regName n) ∧
    (∀ n, n < 32 → fresh.registerMap.lookup (regName n) = some (bin5 n)) ∧
    (fresh.registerMap.map Prod.fst).Nodup ∧ (fresh.registerMap.map Prod.snd).Nodup ∧
    (∀ s : String, IsBitString s → s.length = 5 → ∃ n, n < 32 ∧ bin5 n = s) := by
  refine ⟨by decide, ?_, fun n hn => (regName_token n hn).2.2.2, by decide, by decide, ?_⟩
  · intro k
    constructor
    · intro h
      obtain ⟨v, hv⟩ := Option.isSome_iff_exists.mp h
      exact (register_table (k, v) (lookup_mem _ _ _ hv)).2
    · rintro ⟨n, hn, rfl⟩
      have := (regName_token n hn).2.2.2
      show (registerMap.lookup (regName n)).isSome = true
      rw [this]
      rfl
  · intro s hs hl
    obtain ⟨l⟩ := s
    simp only [String.length] at hl
    match l, hl, hs with
    | [a, b, c, d, e], _, hs =>
      have h01 : ∀ x, x = '0' ∨ x = '1' → x ∈ ['0', '1'] := by
        intro x hx
        rcases hx with rfl | rfl <;> simp
      exact five_bits_hit a (h01 a (hs a (by simp))) b (h01 b (hs b (by simp)))
        c (h01 c (hs c (by simp))) d (h01 d (hs d (by simp))) e (h01 e (hs e (by simp)))

/-! ## The branch encoder and the store encoder -/

theorem bitChar_eq (v : Int) (j : Nat) (hj : j ≤ 12) :
    (if (v % 2 ^ 64).toNat / 2 ^ j % 2 = 1 then '1' else '0') = bitOf v j := by
  have h : ((v % 2 ^ 64).toNat / 2 ^ j % 2 = 1) ↔ (v / 2 ^ j % 2 = 1) := by
    interval_cases j <;> omega
  unfold bitOf
  by_cases hc : v / 2 ^ j % 2 = 1
  · rw [if_pos hc, if_pos (h.mpr hc)]
  · rw [if_neg hc, if_neg (fun x => hc (h.mp x))]

theorem bitOf_half (v : Int) (j : Nat) (hj : j ≤ 11) : bitOf (v / 2) j = bitOf v (j + 1) := by
  have h : (v / 2 / 2 ^ j % 2 = 1) ↔ (v / 2 ^ (j + 1) % 2 = 1) := by
    interval_cases j <;> omega
  unfold bitOf
  by_cases hc : v / 2 ^ (j + 1) % 2 = 1
  · rw [if_pos hc, if_pos (h.mpr hc)]
  · rw [if_neg hc, if_neg (fun x => hc (h.mp x))]

/-- The 13 characters `bitset<13>` prints are bits 12 down to 0. -/
theorem bitset13_bits (v : Int) :
    bitset 13 v = ⟨[bitOf v 12, bitOf v 11, bitOf v 10, bitOf v 9, bitOf v 8, bitOf v 7,
      bitOf v 6, bitOf v 5, bitOf v 4, bitOf v 3, bitOf v 2, bitOf v 1, bitOf v 0]⟩ := by
  have h : bitset 13 v = ⟨(List.range 13).map (fun i => bitOf v (13 - 1 - i))⟩ := by
    unfold bitset
    congr 1
    apply List.map_congr_left
    intro i hi
    have hi2 : i < 13 := List.mem_range.mp hi
    exact bitChar_eq v (13 - 1 - i) (by omega)
  rw [h]
  rfl

/-- The 12 characters `bitset<12>` prints for the halved offset are bits 12
down to 1 of the offset. -/
theorem bitset12_half_bits (v : Int) :
    bitset 12 (v / 2) = ⟨[bitOf v 12, bitOf v 11, bitOf v 10, bitOf v 9, bitOf v 8,
      bitOf v 7, bitOf v 6, bitOf v 5, bitOf v 4, bitOf v 3, bitOf v 2, bitOf v 1]⟩ := by
  have h : bitset 12 (v / 2) = ⟨(List.range 12).map (fun i => bitOf v (12 - 1 - i + 1))⟩ := by
    unfold bitset
    congr 1
    apply List.map_congr_left
    intro i hi
    have hi2 : i < 12 := List.mem_range.mp hi
    rw [bitChar_eq (v / 2) (12 - 1 - i) (by omega), bitOf_half v (12 - 1 - i) (by omega)]
  rw [h]
  rfl

/-- C20. The branch encoder is the store layout applied to the halved offset:
for every state, descriptor, register names and offset, `encodeBType` returns
what `encodeSType` returns for `floor(offset / 2)`; the top 7 characters of the
result are bits 12..6 of the offset and the 5 characters before the opcode are
bits 5..1, bit 0 being discarded. -/
theorem btype_is_stype_halved (a : RiscVAssembler) (info : InstructionInfo)
    (rs1 rs2 : String) (offset : Int) :
    encodeBType a info rs1 rs2 offset = encodeSType a info rs1 rs2 (offset / 2) ∧
    (∃ mid : String, (encodeBType a info rs1 rs2 offset).1
      = bitField offset 12 6 ++ mid ++ bitField offset 5 1 ++ info.opcode) := by
  have h13 := bitset13_bits offset
  have h12 := bitset12_half_bits offset
  have e1 : substr (bitset 13 offset) 0 1 ++ substr (bitset 13 offset) 1 6
      = substr (bitset 12 (offset / 2)) 0 7 := by
    rw [h13, h12]; rfl
  have e2 : substr (bitset 13 offset) 7 4 ++ substr (bitset 13 offset) 11 1
      = substr (bitset 12 (offset / 2)) 7 5 := by
    rw [h13, h12]; rfl
  have f1 : substr (bitset 12 (offset / 2)) 0 7 = bitField offset 12 6 := by
    rw [h12]; rfl
  have f2 : substr (bitset 12 (offset / 2)) 7 5 = bitField offset 5 1 := by
    rw [h12]; rfl
  have key : encodeBType a info rs1 rs2 offset = encodeSType a info rs1 rs2 (offset / 2) := by
    simp only [encodeBType, encodeSType]
    rw [e1, String.append_assoc _ (substr (bitset 13 offset) 7 4), e2]
  refine ⟨key, ?_⟩
  rw [key]
  simp only [encodeSType, f1, f2]
  refine ⟨(index "" a.registerMap rs2).1 ++ (index "" (index "" a.registerMap rs2).2 rs1).1
    ++ info.funct3, ?_⟩
  simp only [String.append_assoc]

/-! ## Streams and the tokens of a line -/

theorem no_token (r : List Char) (h : hasToken r = false) : r.dropWhile isspace = [] := by
  unfold hasToken at h
  cases hd : r.dropWhile isspace with
  | nil => rfl
  | cons c cs => rw [hd] at h; simp at h

theorem skipToken_no_token (r : List Char) (h : hasToken r = false) :
    hasToken (skipToken r) = false := by
  unfold skipToken
  rw [no_token r h]
  rfl

/-- Reading a string from a stream that stands for `r` gives the first token of
`r` (the empty string when there is none) and leaves a stream that stands for
the text after that token. -/
theorem extractString_tracks (st : IStream) (r : List Char) (h : Tracks st r) :
    (extractString st "").2 = ⟨(r.dropWhile isspace).takeWhile (fun c => !isspace c)⟩ ∧
    Tracks (extractString st "").1 (skipToken r) := by
  obtain ⟨buf, e, f⟩ := st
  rcases h with ⟨hf, hb, he⟩ | ⟨hf, hn⟩
  · simp only at hf hb he
    subst hf hb
    cases e with
    | true =>
      have hnil := he rfl
      subst hnil
      exact ⟨rfl, Or.inr ⟨rfl, rfl⟩⟩
    | false =>
      cases hd : buf.dropWhile isspace with
      | nil =>
        have hs : sentry ⟨buf, false, false⟩ = (⟨[], true, true⟩, false) := by
          simp [sentry, hd]
        simp only [extractString, hs]
        refine ⟨rfl, Or.inr ⟨rfl, ?_⟩⟩
        unfold skipToken
        rw [hd]
        rfl
      | cons c cs =>
        have hs : sentry ⟨buf, false, false⟩ = (⟨c :: cs, false, false⟩, true) := by
          simp [sentry, hd]
        simp only [extractString, hs, if_true]
        refine ⟨trivial, Or.inl ⟨rfl, ?_, ?_⟩⟩
        · simp only [skipToken, hd]
        · intro hemp
          simp only [List.isEmpty_iff] at hemp
          simp only [skipToken, hd]
          exact hemp
  · simp only at hf
    subst hf
    have hs : sentry ⟨buf, e, true⟩ = (⟨buf, e, true⟩, false) := by
      simp [sentry]
    simp only [extractString, hs]
    refine ⟨?_, Or.inr ⟨by simp, skipToken_no_token r hn⟩⟩
    rw [no_token r hn]
    rfl

theorem tracks_start (s : List Char) : Tracks ⟨s, false, false⟩ s :=
  Or.inl ⟨rfl, rfl, fun h => by simp at h⟩

/-- The stream an integer extraction leaves does not depend on the value the
variable held. -/
theorem extractInt_stream (st : IStream) (u v : Int) :
    (extractInt st u).1 = (extractInt st v).1 := by
  simp only [extractInt]
  split_ifs <;> rfl

/-- When the stream stands for a text with a token, the extraction stores into
the variable, so the result does not depend on the value the variable held. -/
theorem extractInt_settled (st : IStream) (r : List Char) (h : Tracks st r)
    (ht : hasToken r = true) (u v : Int) : extractInt st u = extractInt st v := by
  obtain ⟨buf, e, f⟩ := st
  rcases h with ⟨hf, hb, he⟩ | ⟨-, hn⟩
  · simp only at hf hb he
    subst hf hb
    cases hd : buf.dropWhile isspace with
    | nil =>
      unfold hasToken at ht
      rw [hd] at ht
      simp at ht
    | cons c cs =>
      have hne : buf ≠ [] := by
        rintro rfl
        simp at hd
      have hef : e = false := by
        cases e with
        | false => rfl
        | true => exact absurd (he rfl) hne
      subst hef
      have hs : sentry ⟨buf, false, false⟩ = (⟨c :: cs, false, false⟩, true) := by
        simp [sentry, hd]
      simp only [extractInt, hs, if_true]
  · rw [hn] at ht
    exact absurd ht (by decide)

/-! ## Line independence -/

/-- On a line that gives its immediate the call never reads the indeterminate
value of its local: the whole result is the same for any two such values. -/
theorem parse_settled (u v : Int) (line : String) (h : ImmediateGiven line) :
    parseAndEncode fresh u line = parseAndEncode fresh v line := by
  have hT0 := tracks_start line.data
  have hT1 := (extractString_tracks _ _ hT0).2
  have hT2 := (extractString_tracks _ _ hT1).2
  have hT3 := (extractString_tracks _ _ hT2).2
  cases hl : instructionMap.lookup (firstToken line) with
  | none =>
    have hz : InstructionInfo.zero.type = Char.ofNat 0 := rfl
    simp only [parseAndEncode, extractString_firstToken, fresh, index_absent _ _ _ hl, hz,
      if_neg (by decide : ¬ Char.ofNat 0 = 'R'), if_neg (by decide : ¬ Char.ofNat 0 = 'I'),
      if_neg (by decide : ¬ Char.ofNat 0 = 'B'), if_neg (by decide : ¬ Char.ofNat 0 = 'J'),
      if_neg (by decide : ¬ Char.ofNat 0 = 'S'), if_neg (by decide : ¬ Char.ofNat 0 = 'U')]
  | some i =>
    have hfmt : formatOf (firstToken line) = some i.type := by
      simp only [formatOf, fresh, hl, Option.map_some']
    simp only [parseAndEncode, extractString_firstToken, fresh, index_found _ _ _ _ hl]
    split_ifs with hR hI hB hJ hS hU
    · rfl
    · rw [extractInt_settled _ _ hT3 (h 'I' 3 (hI ▸ hfmt) rfl) u v]
    · rw [extractInt_settled _ _ hT3 (h 'B' 3 (hB ▸ hfmt) rfl) u v]
    · rw [extractInt_settled _ _ hT2 (h 'J' 2 (hJ ▸ hfmt) rfl) u v]
    · rw [extractInt_settled _ _ hT2 (h 'S' 2 (hS ▸ hfmt) rfl) u v]
    · rw [extractInt_settled _ _ hT2 (h 'U' 2 (hU ▸ hfmt) rfl) u v]
    · rfl

/-- C15, as stated, fails: `addi x1, x2` gives no immediate, so the call reads
its uninitialised local `immediate`, and the string returned is computed from
that indeterminate value.  With the value 5 (such as an earlier call on
`addi x1, x2, 5` may leave behind) the result on the used assembler differs
from the result on a fresh assembler with the value 0. -/
theorem line_independence_counterexample :
    ¬ ImmediateGiven "addi x1, x2" ∧
    (parseAndEncode (runLines fresh [(0, "addi x1, x2, 5")]) 5 "addi x1, x2").1
      = "000000000101" ++ "" ++ "000" ++ "00001" ++ "0010011" ∧
    (parseAndEncode fresh 0 "addi x1, x2").1
      = "000000000000" ++ "" ++ "000" ++ "00001" ++ "0010011" ∧
    (parseAndEncode (runLines fresh [(0, "addi x1, x2, 5")]) 5 "addi x1, x2").1
      ≠ (parseAndEncode fresh 0 "addi x1, x2").1 := by
  refine ⟨?_, by decide, by decide, by decide⟩
  intro h
  exact absurd (h 'I' 3 (by decide) (by decide)) (by decide)

/-- C15, amended. The tables never carry anything from one line to the next:
after any finite sequence of calls, a call on any line returns the string the
same call returns on a fresh assembler, given the same indeterminate value of
the uninitialised local.  On every line that gives its immediate (and on every
line whose mnemonic is R-type or unsupported) that value is never read, so the
string is the one a fresh assembler returns, whatever the two values are. -/
theorem line_independence (history : List (Int × String)) (u v : Int) (line : String) :
    (parseAndEncode (runLines fresh history) u line).1 = (parseAndEncode fresh u line).1 ∧
    (ImmediateGiven line →
      (parseAndEncode (runLines fresh history) u line).1 = (parseAndEncode fresh v line).1) ∧
    ((∀ c, formatOf (firstToken line) = some c → c = 'R') → ImmediateGiven line) := by
  have h1 := parse_output _ u line (runLines_agrees history fresh fresh_agrees)
  refine ⟨h1, ?_, ?_⟩
  · intro hg
    rw [h1, parse_settled u v line hg]
  · intro hR c n hc hn
    have hp : immediatePosition 'R' = none := by decide
    rw [hR c hc, hp] at hn
    cases hn

/-- C15, amended, instance: after a line with an unknown mnemonic and a line
with an unknown register, `addi x2, x1, 10` returns what a fresh assembler
returns, with different indeterminate values on the two sides. -/
theorem line_independence_witness :
    (parseAndEncode (runLines fresh [(7, "foo x1, x2, x3"), (9, "add x1, x2, x32")]) 5
        "addi x2, x1, 10").1
      = (parseAndEncode fresh 0 "addi x2, x1, 10").1 := by
  have hg : ImmediateGiven "addi x2, x1, 10" := by
    intro c n hc hn
    have hf : formatOf (firstToken "addi x2, x1, 10") = some 'I' := by decide
    rw [hf] at hc
    cases hc
    have hp : immediatePosition 'I' = some 3 := by decide
    rw [hp] at hn
    cases hn
    decide
  exact (line_independence [(7, "foo x1, x2, x3"), (9, "add x1, x2, x32")] 5 0
    "addi x2, x1, 10").2.1 hg

/-! ## The register table after a call -/

theorem index_snd (m : List (String × String)) (k : String) :
    (index "" m k).2 = insertAbsent m k := by
  unfold insertAbsent
  cases h : m.lookup k with
  | some v => rw [index_found _ _ _ _ h]; rfl
  | none => rw [index_absent _ _ _ h]; rfl

theorem encodeRType_registers (a : RiscVAssembler) (info : InstructionInfo)
    (rd rs1 rs2 : String) :
    (encodeRType a info rd rs1 rs2).2.registerMap
      = [rs2, rs1, rd].foldl insertAbsent a.registerMap := by
  simp only [encodeRType, index_snd, List.foldl]

theorem encodeIType_registers (a : RiscVAssembler) (info : InstructionInfo)
    (rd rs1 : String) (imm : Int) :
    (encodeIType a info rd rs1 imm).2.registerMap
      = [rs1, rd].foldl insertAbsent a.registerMap := by
  simp only [encodeIType, index_snd, List.foldl]

theorem encodeBType_registers (a : RiscVAssembler) (info : InstructionInfo)
    (rs1 rs2 : String) (offset : Int) :
    (encodeBType a info rs1 rs2 offset).2.registerMap
      = [rs2, rs1].foldl insertAbsent a.registerMap := by
  simp only [encodeBType, index_snd, List.foldl]

theorem encodeJType_registers (a : RiscVAssembler) (info : InstructionInfo)
    (rd : String) (offset : Int) :
    (encodeJType a info rd offset).2.registerMap
      = [rd].foldl insertAbsent a.registerMap := by
  simp only [encodeJType, index_snd, List.foldl]

theorem encodeSType_registers (a : RiscVAssembler) (info : InstructionInfo)
    (rs1 rs2 : String) (offset : Int) :
    (encodeSType a info rs1 rs2 offset).2.registerMap
      = [rs2, rs1].foldl insertAbsent a.registerMap := by
  simp only [encodeSType, index_snd, List.foldl]

theorem encodeUType_registers (a : RiscVAssembler) (info : InstructionInfo)
    (rd : String) (imm : Int) :
    (encodeUType a info rd imm).2.registerMap
      = [rd].foldl insertAbsent a.registerMap := by
  simp only [encodeUType, index_snd, List.foldl]

theorem extractInt_refused (st st1 : IStream) (w : Int) (hs : sentry st = (st1, false)) :
    extractInt st w = (st1, w) := by
  simp [extractInt, hs]

theorem extractString_refused (st st1 : IStream) (old : String)
    (hs : sentry st = (st1, false)) : extractString st old = (st1, old) := by
  simp [extractString, hs]

theorem sentry_failed (b : List Char) (x : Bool) :
    sentry ⟨b, x, true⟩ = (⟨b, x, true⟩, false) := by
  simp [sentry]

/-- The string read after the offset of a store, from a stream that stands for
the text `r`, is the one read from a stream opened on `r`. -/
theorem store_base (st : IStream) (r : List Char) (h : Tracks st r) (u : Int) :
    (extractString (extractInt st u).1 "").2
      = (extractString (extractInt ⟨r, false, false⟩ 0).1 "").2 := by
  obtain ⟨buf, e, f⟩ := st
  have hdead : ∀ (b : List Char) (x : Bool) (w : Int),
      (extractString (extractInt ⟨b, x, true⟩ w).1 "").2 = "" := by
    intro b x w
    rw [extractInt_refused _ _ w (sentry_failed b x),
      extractString_refused _ _ "" (sentry_failed b x)]
  have hnone : ∀ (b : List Char) (w : Int), b.dropWhile isspace = [] →
      (extractString (extractInt ⟨b, false, false⟩ w).1 "").2 = "" := by
    intro b w hb
    have hs : sentry ⟨b, false, false⟩ = (⟨[], true, true⟩, false) := by simp [sentry, hb]
    rw [extractInt_refused _ _ w hs, extractString_refused _ _ "" (sentry_failed [] true)]
  rcases h with ⟨hf, hb, he⟩ | ⟨hf, hn⟩
  · simp only at hf hb he
    subst hf hb
    cases e with
    | false => rw [extractInt_stream _ u 0]
    | true =>
      have hnil := he rfl
      subst hnil
      have hs : sentry ⟨[], true, false⟩ = (⟨[], true, true⟩, false) := by decide
      rw [hnone [] 0 rfl, extractInt_refused _ _ u hs,
        extractString_refused _ _ "" (sentry_failed [] true)]
  · simp only at hf
    subst hf
    rw [hdead buf e u, hnone r 0 (no_token r hn)]

/-- The register table after a call, from any state: it is the table before the
call with the register names the call looks up inserted in order, each only
when it has no entry yet. -/
theorem parse_registers (a : RiscVAssembler) (u : Int) (line : String) :
    (parseAndEncode a u line).2.registerMap
      = (registerOperands
          ((a.instructionMap.lookup (firstToken line)).getD InstructionInfo.zero).type
          line).foldl insertAbsent a.registerMap := by
  have hT0 := tracks_start line.data
  obtain ⟨-, hT1⟩ := extractString_tracks _ _ hT0
  obtain ⟨e1, hT2⟩ := extractString_tracks _ _ hT1
  obtain ⟨e2, hT3⟩ := extractString_tracks _ _ hT2
  obtain ⟨e3, -⟩ := extractString_tracks _ _ hT3
  have k1 : (extractString (extractString ⟨line.data, false, false⟩ "").1 "").2
      = nthToken 1 line := e1
  have k2 : (extractString (extractString (extractString
      ⟨line.data, false, false⟩ "").1 "").1 "").2 = nthToken 2 line := e2
  have k3 : (extractString (extractString (extractString (extractString
      ⟨line.data, false, false⟩ "").1 "").1 "").1 "").2 = nthToken 3 line := e3
  have ks : (extractString (extractInt (extractString (extractString
      ⟨line.data, false, false⟩ "").1 "").1 u).1 "").2 = storeBaseToken line :=
    store_base _ _ hT2 u
  simp only [parseAndEncode, extractString_firstToken, index_getD, registerOperands]
  split_ifs
  · rw [encodeRType_registers, k1, k2, k3]
    rfl
  · rw [encodeIType_registers, k1, k2]
    rfl
  · rw [encodeBType_registers, k1, k2]
    rfl
  · rw [encodeJType_registers, k1]
    rfl
  · rw [encodeSType_registers, k1, ks]
    rfl
  · rw [encodeUType_registers, k1]
  · rfl

/-- Lookups after a run of insertions: an entry that was there stays, and a key
that was absent is present, with the empty string, exactly when it is one of
the inserted names. -/
theorem foldl_insertAbsent_lookup (ops : List String) :
    ∀ (m : List (String × String)) (t : String),
      (ops.foldl insertAbsent m).lookup t
        = match m.lookup t with
          | some v => some v
          | none => if t ∈ ops then some "" else none := by
  induction ops with
  | nil =>
    intro m t
    cases h : m.lookup t <;> simp [h]
  | cons k ks ih =>
    intro m t
    rw [List.foldl_cons, ih (insertAbsent m k) t]
    unfold insertAbsent
    cases hk : m.lookup k with
    | some w =>
      simp only [Option.isSome_some, if_true]
      cases ht : m.lookup t with
      | some v => rfl
      | none =>
        have hne : t ≠ k := by
          rintro rfl
          rw [hk] at ht
          cases ht
        simp only [List.mem_cons, hne, false_or]
    | none =>
      simp only [Option.isSome_none, Bool.false_eq_true, if_false, lookup_append_singleton]
      cases ht : m.lookup t with
      | some v => rfl
      | none =>
        by_cases hne : t = k
        · subst hne
          simp
        · have hb : (t == k) = false := by simpa using hne
          simp only [hb, Bool.false_eq_true, if_false, List.mem_cons, hne, false_or]

/-- C16, amended. A call never removes or changes an entry of either table, but
`operator[]` may add entries.  The instruction table after the call is the table
before, with the line's first token appended with a value-initialised
descriptor exactly when that token had no descriptor.  The register table after
the call is the table before with the register names the call looks up inserted
in lookup order, each only when it has no entry yet; so a key that was absent
is present afterwards, with the empty string, exactly when it is one of those
names.  A call on an R-type line `m rd, rs1, rs2` with registers in `x0..x31`
leaves a fresh assembler as it was. -/
theorem tables_only_grow (a : RiscVAssembler) (u : Int) (line : String) :
    (parseAndEncode a u line).2.instructionMap
      = (if (a.instructionMap.lookup (firstToken line)).isSome then a.instructionMap
         else a.instructionMap ++ [(firstToken line, InstructionInfo.zero)]) ∧
    (parseAndEncode a u line).2.registerMap
      = (registerOperands
          ((a.instructionMap.lookup (firstToken line)).getD InstructionInfo.zero).type
          line).foldl insertAbsent a.registerMap ∧
    (∀ t v, a.instructionMap.lookup t = some v →
      (parseAndEncode a u line).2.instructionMap.lookup t = some v) ∧
    (∀ t v, a.registerMap.lookup t = some v →
      (parseAndEncode a u line).2.registerMap.lookup t = some v) ∧
    (∀ t, a.registerMap.lookup t = none →
      (parseAndEncode a u line).2.registerMap.lookup t
        = if t ∈ registerOperands
            ((a.instructionMap.lookup (firstToken line)).getD InstructionInfo.zero).type line
          then some "" else none) ∧
    (∀ m info rd rs1 rs2, m ∈ rTypeMnemonics → instructionMap.lookup m = some info →
      rd < 32 → rs1 < 32 → rs2 < 32 →
      (parseAndEncode fresh u
        (m ++ " " ++ regName rd ++ ", " ++ regName rs1 ++ ", " ++ regName rs2)).2 = fresh) := by
  obtain ⟨hi, -⟩ := parse_state a u line
  have hreg := parse_registers a u line
  refine ⟨?_, hreg, ?_, ?_, ?_, ?_⟩
  · rw [hi]
    cases h : a.instructionMap.lookup (firstToken line) with
    | some v => rw [index_found _ _ _ _ h]; rfl
    | none => rw [index_absent _ _ _ h]; rfl
  · intro t v htv
    rw [hi]
    rcases index_extends InstructionInfo.zero a.instructionMap (firstToken line) t with
      e | ⟨n, -⟩
    · rw [e, htv]
    · rw [htv] at n
      exact absurd n (by simp)
  · intro t v htv
    rw [hreg, foldl_insertAbsent_lookup, htv]
  · intro t ht
    rw [hreg, foldl_insertAbsent_lookup, ht]
  · intro m info rd rs1 rs2 hm hinfo hrd hrs1 hrs2
    obtain ⟨hmt, hR, -⟩ := table_RType (m, info) (lookup_mem _ _ _ hinfo) hm
    obtain ⟨-, hd, hdl, hdv⟩ := regName_token rd hrd
    obtain ⟨-, h1, h1l, h1v⟩ := regName_token rs1 hrs1
    obtain ⟨h2, -, -, h2v⟩ := regName_token rs2 hrs2
    rw [line3_data, parse_RType fresh u m info _ _ _ hmt hd h1 h2 hinfo hR,
      substr_init _ _ hdl, substr_init _ _ h1l]
    simp only [encodeRType, fresh, index_found _ _ _ _ h2v, index_found _ _ _ _ h1v,
      index_found _ _ _ _ hdv]

/-- C16, amended, instances: the call on `add x1, x2, x32` looks up `x32`, `x2`,
`x1` and appends exactly the entry of `x32`, keeping the entry of `x1`; the call
on `foo x1, x2, x3` looks up no register; the call on `add x1, x2, x3` changes
nothing. -/
theorem tables_only_grow_witness :
    registerOperands 'R' "add x1, x2, x32" = ["x32", "x2", "x1"] ∧
    (parseAndEncode fresh 0 "add x1, x2, x32").2.registerMap
      = fresh.registerMap ++ [("x32", "")] ∧
    (parseAndEncode fresh 0 "add x1, x2, x32").2.registerMap.lookup "x1" = some "00001" ∧
    (parseAndEncode fresh 0 "foo x1, x2, x3").2.registerMap = fresh.registerMap ∧
    (parseAndEncode fresh 0 "add x1, x2, x3").2 = fresh :=
  ⟨by decide,
   ((tables_only_grow fresh 0 "add x1, x2, x32").2.1).trans (by decide),
   (tables_only_grow fresh 0 "add x1, x2, x32").2.2.2.1 "x1" "00001" (by decide),
   ((tables_only_grow fresh 0 "foo x1, x2, x3").2.1).trans (by decide),
   (tables_only_grow fresh 0 "add x1, x2, x32").2.2.2.2.2 "add"
     ⟨"0110011", "000", "0000000", 'R'⟩ 1 2 3 (by decide) (by decide) (by decide)
     (by decide) (by decide)⟩

end RiscV
